import Mathlib

/-
  Verification development for the VSFS write-ahead journaling tool
  (src/termProject/journal.c).

  The disk image is modelled as a total byte function `Disk : Nat → Nat`;
  every read goes through a `% 256` so that junk values behave like the
  C program's `uint8_t` reads.  Machine integers are modelled as `Nat`
  with explicit `% 2^w` where overflow matters; all journal offsets and
  sizes handled by the program stay far below `2^32`, matching `uint32_t`
  arithmetic on the ranges the code actually reaches.

  The C scan loops (`journal_collect_latest_committed`, the loop of
  `cmd_install`) advance `pos` by at least 4 bytes per iteration, so a
  fuel argument initialised to `nbytes_used` always suffices; fuel makes
  the definitions structurally recursive and hence evaluable by `decide`.
-/

namespace VsfsJournal

/-! ### Basic model: bytes, blocks, little-endian fields -/

abbrev Disk := Nat → Nat

/-- A 4096-byte block image, modelled as a byte function on offsets 0..4095. -/
abbrev Image := Nat → Nat

def JOURNAL_MAGIC : Nat := 0x4A524E4C

/-- journal_base_off(): the journal region starts at block 1, byte 4096. -/
def JBASE : Nat := 4096

/-- journal_capacity_bytes() = JOURNAL_BLOCKS * BLOCK_SIZE = 16 * 4096. -/
def CAPACITY : Nat := 65536

/-- Write `n` bytes from `src` at absolute byte offset `off` (pwrite_exact). -/
def writeBytes (d : Disk) (off n : Nat) (src : Nat → Nat) : Disk :=
  fun a => if off ≤ a ∧ a < off + n then src (a - off) else d a

/-- write_block: write a 4096-byte image at block number `blk`. -/
def write_block (d : Disk) (blk : Nat) (img : Image) : Disk :=
  writeBytes d (blk * 4096) 4096 img

/-- read_block: the 4096-byte image of block `blk` (bytes reduced mod 256). -/
def read_block (d : Disk) (blk : Nat) : Image :=
  fun i => d (blk * 4096 + i) % 256

/-- The raw journal-region byte function: byte `p` of the journal region. -/
def jraw (d : Disk) : Nat → Nat :=
  fun p => d (JBASE + p)

/-- Little-endian 16-bit read at offset `off` of a byte function. -/
def le16At (f : Nat → Nat) (off : Nat) : Nat :=
  f off % 256 + 256 * (f (off + 1) % 256)

/-- Little-endian 32-bit read at offset `off` of a byte function. -/
def le32At (f : Nat → Nat) (off : Nat) : Nat :=
  f off % 256 + 256 * (f (off + 1) % 256)
    + 65536 * (f (off + 2) % 256) + 16777216 * (f (off + 3) % 256)

/-- Little-endian serialization of a 32-bit value (byte `i` of it). -/
def le_src (v : Nat) : Nat → Nat :=
  fun i => v / 256 ^ i % 256

/-- Serialized `struct rec_header`: 16-bit type then 16-bit size. -/
def rh_src (t s : Nat) : Nat → Nat :=
  fun i => if i < 2 then t / 256 ^ i % 256 else s / 256 ^ (i - 2) % 256

/-- Serialized `struct journal_header`: 32-bit magic then 32-bit nbytes_used. -/
def hdr_src (m u : Nat) : Nat → Nat :=
  fun i => if i < 4 then m / 256 ^ i % 256 else u / 256 ^ (i - 4) % 256

/-! ### Journal store -/

/-- In-memory `struct journal_header`. -/
structure JH where
  magic : Nat
  nbytes_used : Nat
  deriving DecidableEq, Repr

/-- journal_read_header: decode the 8 header bytes at the journal base. -/
def journal_read_header (d : Disk) : JH :=
  ⟨le32At (jraw d) 0, le32At (jraw d) 4⟩

/-- journal_write_header: write the 8 header bytes at the journal base. -/
def journal_write_header (d : Disk) (jh : JH) : Disk :=
  writeBytes d JBASE 8 (hdr_src jh.magic jh.nbytes_used)

/-- journal_clear_region: zero all 16 journal blocks, one block write each. -/
def journal_clear_region (d : Disk) : Disk :=
  (List.range 16).foldl (fun d i => write_block d (1 + i) (fun _ => 0)) d

/-- The header-validity test shared by journal_init_if_needed and
journal_fail_if_missing: magic matches and 8 ≤ nbytes_used ≤ capacity. -/
def validHeaderB (jh : JH) : Bool :=
  jh.magic == JOURNAL_MAGIC
    && decide (8 ≤ jh.nbytes_used) && decide (jh.nbytes_used ≤ CAPACITY)

/-- journal_init_if_needed: read the header; if invalid, clear the region and
write a fresh header with nbytes_used = 8.  Returns the disk and header. -/
def journal_init_if_needed (d : Disk) : Disk × JH :=
  let jh := journal_read_header d
  if validHeaderB jh then (d, jh)
  else (journal_write_header (journal_clear_region d) ⟨JOURNAL_MAGIC, 8⟩,
        ⟨JOURNAL_MAGIC, 8⟩)

/-- Error exits of the two commands (each fprintf+exit(1) site). -/
inductive Err where
  | nameMissing | nameTooLong | rootNotDir | rootNoBlock
  | noFreeInode | outOfRange | corruptBitmap | dirFull | fileExists
  | journalFull | journalMissing | txnTooLarge
  deriving DecidableEq, Repr

/-- journal_append_bytes: fail if the journal would overflow, else write the
`n` source bytes at base + nbytes_used, bump the header and persist it. -/
def journal_append_bytes (d : Disk) (jh : JH) (src : Nat → Nat) (n : Nat) :
    Except Err (Disk × JH) :=
  if CAPACITY < jh.nbytes_used + n then .error .journalFull
  else
    let d1 := writeBytes d (JBASE + jh.nbytes_used) n src
    let jh1 : JH := ⟨jh.magic, jh.nbytes_used + n⟩
    .ok (journal_write_header d1 jh1, jh1)

/-- journal_append_data: record header (type 1, size 4104), block number,
then the 4096-byte image, as three append_bytes calls. -/
def journal_append_data (d : Disk) (jh : JH) (bno : Nat) (img : Image) :
    Except Err (Disk × JH) :=
  match journal_append_bytes d jh (rh_src 1 4104) 4 with
  | .error e => .error e
  | .ok (d, jh) =>
      match journal_append_bytes d jh (le_src bno) 4 with
      | .error e => .error e
      | .ok (d, jh) => journal_append_bytes d jh img 4096

/-- journal_append_commit: record header (type 2, size 4). -/
def journal_append_commit (d : Disk) (jh : JH) : Except Err (Disk × JH) :=
  journal_append_bytes d jh (rh_src 2 4) 4

/-! ### Record decoding -/

/-- The 16-bit record type field at record position `pos`. -/
def rec_type (J : Nat → Nat) (pos : Nat) : Nat := le16At J pos

/-- The 16-bit record size field at record position `pos`. -/
def rec_size (J : Nat → Nat) (pos : Nat) : Nat := le16At J (pos + 2)

/-- The 32-bit block number of a DATA record at position `pos`. -/
def rec_bno (J : Nat → Nat) (pos : Nat) : Nat := le32At J (pos + 4)

/-- The 4096-byte image of a DATA record at position `pos` (the C buffer
holds exactly 4096 bytes; offsets past it read as 0). -/
def rec_img (J : Nat → Nat) (pos : Nat) : Image :=
  fun i => if i < 4096 then J (pos + 8 + i) % 256 else 0

/-! ### Committed-view overlay (journal_collect_latest_committed) -/

/-- `struct logged_image`: a block number with a 4096-byte image. -/
structure LoggedImage where
  block_no : Nat
  image : Image

/-- Replace the image of the first entry with the given block number. -/
def replace_first : List LoggedImage → Nat → Image → List LoggedImage
  | [], _, _ => []
  | e :: es, bno, img =>
      if e.block_no = bno then ⟨bno, img⟩ :: es
      else e :: replace_first es bno img

/-- The linear search of logged_image_upsert: does some entry carry this
block number? -/
def has_block : List LoggedImage → Nat → Bool
  | [], _ => false
  | e :: es, bno => e.block_no == bno || has_block es bno

/-- logged_image_upsert: overwrite the first entry with this block number if
present; otherwise append, failing (none) when the array is full. -/
def logged_image_upsert (arr : List LoggedImage) (max bno : Nat) (img : Image) :
    Option (List LoggedImage) :=
  if has_block arr bno then some (replace_first arr bno img)
  else if max ≤ arr.length then none
  else some (arr ++ [⟨bno, img⟩])

/-- logged_image_find: the image of the first entry with this block number. -/
def logged_image_find : List LoggedImage → Nat → Option Image
  | [], _ => none
  | e :: es, bno => if e.block_no = bno then some e.image else logged_image_find es bno

/-- The COMMIT inner loop: upsert each pending entry in order into `latest`,
stopping at the first failed upsert.  The Boolean records whether the
failure branch (the C loop's break on a failed upsert) was taken. -/
def commit_pending : List LoggedImage → List LoggedImage → Nat →
    List LoggedImage × Bool
  | [], latest, _ => (latest, false)
  | p :: ps, latest, max =>
      match logged_image_upsert latest max p.block_no p.image with
      | none => (latest, true)
      | some l1 => commit_pending ps l1 max

/-- The scan loop of journal_collect_latest_committed.  `fuel` only bounds
the number of iterations (each iteration advances `pos` by at least 4, so
`fuel = used` always suffices).  The Boolean output is instrumentation: it
records whether some COMMIT's upsert loop ever hit the overflow break. -/
def collect_loop (J : Nat → Nat) (used : Nat) :
    Nat → Nat → List LoggedImage → List LoggedImage → Nat → Bool →
    List LoggedImage × Bool
  | 0, _, _, latest, _, ovf => (latest, ovf)
  | fuel + 1, pos, pending, latest, max, ovf =>
    if pos + 4 ≤ used then
      let t := rec_type J pos
      let s := rec_size J pos
      if s < 4 then (latest, ovf)
      else if used < pos + s then (latest, ovf)
      else if t = 1 then
        if s = 4104 then
          if 32 ≤ pending.length then (latest, ovf)
          else
            collect_loop J used fuel (pos + s)
              (pending ++ [⟨rec_bno J pos, rec_img J pos⟩]) latest max ovf
        else (latest, ovf)
      else if t = 2 then
        if s = 4 then
          let r := commit_pending pending latest max
          collect_loop J used fuel (pos + s) [] r.1 max (ovf || r.2)
        else (latest, ovf)
      else (latest, ovf)
    else (latest, ovf)

/-- journal_collect_latest_committed: scan the journal bytes `J` with header
byte count `used`, building the latest-committed overlay (capacity `max`;
the caller in cmd_create passes 64). -/
def journal_collect_latest_committed (J : Nat → Nat) (used max : Nat) :
    List LoggedImage × Bool :=
  collect_loop J used used 8 [] [] max false

/-! ### Spec-level record stream and declarative overlay

The stream scanner is the stateless record decoder of spec section 4.R:
same stop conditions as the code, no pending/latest state.  The
declarative overlay below it is written from the spec's own words
(latest committed transaction wins; within one transaction the last DATA
record wins; the uncommitted tail contributes nothing) to compare with
the code's overlay. -/

inductive JRec where
  | data : Nat → Image → JRec
  | commit : JRec

/-- The stateless record scan: decode records from position `pos` with the
stop conditions of section 4.R (also those of both code scan loops). -/
def recStreamF (J : Nat → Nat) (used : Nat) : Nat → Nat → List JRec
  | 0, _ => []
  | fuel + 1, pos =>
    if pos + 4 ≤ used then
      let t := rec_type J pos
      let s := rec_size J pos
      if s < 4 then []
      else if used < pos + s then []
      else if t = 1 then
        if s = 4104 then
          .data (rec_bno J pos) (rec_img J pos) :: recStreamF J used fuel (pos + s)
        else []
      else if t = 2 then
        if s = 4 then .commit :: recStreamF J used fuel (pos + s)
        else []
      else []
    else []

/-- The record stream of a journal: scan from position 8. -/
def recStream (J : Nat → Nat) (used : Nat) : List JRec :=
  recStreamF J used used 8

/-- Group a record stream into committed transactions: each COMMIT closes a
group of the DATA records since the previous COMMIT; a trailing run of
DATA records without a COMMIT (the uncommitted tail) is dropped. -/
def groupsAux : List JRec → List LoggedImage → List (List LoggedImage)
  | [], _ => []
  | .data b i :: rs, acc => groupsAux rs (acc ++ [⟨b, i⟩])
  | .commit :: rs, acc => acc :: groupsAux rs []

/-- The committed transactions of a record stream. -/
def committedGroups (rs : List JRec) : List (List LoggedImage) :=
  groupsAux rs []

/-- Modelled from the spec's tie-break rule: within one transaction the LAST
DATA record for a block wins (an entry counts only when no later entry
carries the same block number). -/
def lastInP : List LoggedImage → Nat → Option Image
  | [], _ => none
  | e :: es, b =>
      match lastInP es b with
      | some i => some i
      | none => if e.block_no = b then some e.image else none

/-- Modelled from the spec's overlay description, with an explicit default:
fold the committed transactions in order; a later transaction mentioning
the block overrides anything earlier. -/
def specOverlayD (gs : List (List LoggedImage)) (dflt : Option Image) (b : Nat) :
    Option Image :=
  gs.foldl (fun acc g => match lastInP g b with
    | some i => some i
    | none => acc) dflt

/-- Modelled from the spec: the latest-committed overlay as a mapping from
block number to image — the image from the latest committed transaction
that mentions the block, last DATA record within a transaction winning,
and nothing for blocks no committed transaction mentions. -/
def specOverlay (gs : List (List LoggedImage)) (b : Nat) : Option Image :=
  specOverlayD gs none b

/-! ### cmd_create -/

/-- bitmap_test: bit `i` of the bitmap image (LSB-first within each byte). -/
def bitmap_test (bm : Image) (i : Nat) : Bool :=
  Nat.testBit (bm (i / 8)) (i % 8)

/-- bitmap_set: set bit `i` of the bitmap image. -/
def bitmap_set (bm : Image) (i : Nat) : Image :=
  fun j => if j = i / 8 then bm j ||| 1 <<< (i % 8) else bm j

/-- The allocation scan of cmd_create: the first clear bit among bits 1..63
of the inode bitmap (bit 0 is reserved for the root). -/
def find_free_inum (bm : Image) : Option Nat :=
  (List.range' 1 63).find? (fun i => !bitmap_test bm i)

/-- The 16-bit type field of inode slot `i % 32` in the inode-table image
selected by `i / 32` (block 0 image `t19`, block 1 image `t20`). -/
def inode_slot_type (t19 t20 : Image) (i : Nat) : Nat :=
  le16At (if i / 32 = 0 then t19 else t20) (128 * (i % 32))

/-- Lines 387-415 of cmd_create: allocate an inode number from the bitmap,
range-check its inode-table block index, and require the chosen slot to
be free (type 0). -/
def alloc_inode (bm t19 t20 : Image) : Except Err Nat :=
  match find_free_inum bm with
  | none => .error .noFreeInode
  | some i =>
      if 2 ≤ i / 32 then .error .outOfRange
      else if inode_slot_type t19 t20 i ≠ 0 then .error .corruptBitmap
      else .ok i

/-- C-string bytes of the name argument: byte `j` of the argv string, 0 at
and after its end.  (argv strings contain no interior NUL bytes.) -/
def nameFn (name : List Nat) : Nat → Nat :=
  fun j => name.getD j 0

/-- strlen of the name argument. -/
def strlenL (name : List Nat) : Nat :=
  (name.takeWhile (fun b => b != 0)).length

/-- strncmp(a, b, n) == 0: equal as C strings within the first `n` bytes
(stop at a mismatch or at a NUL on both sides). -/
def strncmp_eq (a b : Nat → Nat) : Nat → Nat → Bool
  | _, 0 => true
  | k, n + 1 =>
      if a k % 256 ≠ b k % 256 then false
      else if a k % 256 = 0 then true
      else strncmp_eq a b (k + 1) n

/-- Write `n` bytes from `src` at offset `off` of an in-memory image. -/
def write_img (img : Image) (off n : Nat) (src : Nat → Nat) : Image :=
  fun j => if off ≤ j ∧ j < off + n then src (j - off) else img j

/-- The 128 serialized bytes of the fresh inode built by cmd_create:
type 1, links 1, size 0, all direct pointers 0, ctime = mtime = now
(truncated to 32 bits), zero padding. -/
def inode_src (now : Nat) : Nat → Nat :=
  fun i =>
    if i < 2 then 1 / 256 ^ i % 256
    else if i < 4 then 1 / 256 ^ (i - 2) % 256
    else if i < 8 then 0
    else if i < 40 then 0
    else if i < 44 then now % 4294967296 / 256 ^ (i - 40) % 256
    else if i < 48 then now % 4294967296 / 256 ^ (i - 44) % 256
    else 0

/-- The 32 serialized bytes of the new directory entry: 32-bit inode number,
then the 28-byte name field zero-filled and strncpy'd (at most 27 bytes
copied, so byte 27 stays 0). -/
def dirent_src (inum : Nat) (name : List Nat) : Nat → Nat :=
  fun i =>
    if i < 4 then inum / 256 ^ i % 256
    else if i - 4 < 27 then nameFn name (i - 4)
    else 0

/-- Overlay lookup used by cmd_create: replace the live image when the
overlay has an entry for the block, else keep it. -/
def overlayGet (latest : List LoggedImage) (b : Nat) (live : Image) : Image :=
  match logged_image_find latest b with
  | some img => img
  | none => live

/-- The in-memory outcome of cmd_create before any journal byte is written:
the (possibly journal-initialised) disk, its header, and the block images
to append as DATA records, in append order. -/
structure Plan where
  d : Disk
  jh : JH
  writes : List (Nat × Image)

/-- Lines 387-490 of cmd_create after the images are resolved: allocate the
inode, compute the directory slot, check for duplicates and capacity, and
perform the in-memory mutations, producing the DATA-record list
(inode bitmap, inode table 0, inode table 1 only when the new inode lives
there, root directory block). -/
def create_finish (d : Disk) (jh : JH) (bm t19 t20 : Image) (rdb : Nat)
    (rd : Image) (name : List Nat) (now : Nat) : Except Err Plan :=
  match alloc_inode bm t19 t20 with
  | .error e => .error e
  | .ok i =>
  let ibi := i / 32
  let slot := i % 32
  let ue0 := le32At t19 4 / 32
  let ue := if ue0 < 2 then 2 else ue0
  if 128 ≤ ue then .error .dirFull
  else if (List.range ue).any (fun k =>
      le32At rd (32 * k) != 0
        && strncmp_eq (fun j => rd (32 * k + 4 + j)) (nameFn name) 0 28) then
    .error .fileExists
  else
    let nmods := if ibi = 1 then 4 else 3
    if CAPACITY < jh.nbytes_used + (nmods * 4104 + 4) then .error .journalFull
    else
      let bm1 := bitmap_set bm i
      let t19a := if ibi = 0 then write_img t19 (128 * slot) 128 (inode_src now) else t19
      let t20a := if ibi = 0 then t20 else write_img t20 (128 * slot) 128 (inode_src now)
      let rd1 := write_img rd (32 * ue) 32 (dirent_src i name)
      let t19b := write_img t19a 4 4 (le_src ((le32At t19a 4 + 32) % 4294967296))
      let t19c := write_img t19b 44 4 (le_src (now % 4294967296))
      .ok ⟨d, jh,
        [(17, bm1), (19, t19c)]
          ++ (if ibi = 1 then [(20, t20a)] else []) ++ [(rdb, rd1)]⟩

/-- Lines 301-384 of cmd_create: name validation, journal initialisation,
reading the live images, resolving and validating the root inode, and —
when the journal is non-empty — overlaying the latest committed images
and re-validating. -/
def create_plan (d0 : Disk) (name : List Nat) (now : Nat) : Except Err Plan :=
  if name = [] || nameFn name 0 == 0 then .error .nameMissing
  else if 28 ≤ strlenL name then .error .nameTooLong
  else
    let p := journal_init_if_needed d0
    let d := p.1
    let jh := p.2
    let bm0 := read_block d 17
    let t19x := read_block d 19
    let t20x := read_block d 20
    if le16At t19x 0 ≠ 2 then .error .rootNotDir
    else
      let rdb0 := le32At t19x 8
      if rdb0 = 0 then .error .rootNoBlock
      else
        if 8 < jh.nbytes_used then
          let latest := (journal_collect_latest_committed (jraw d) jh.nbytes_used 64).1
          let bm := overlayGet latest 17 bm0
          let t19 := overlayGet latest 19 t19x
          let t20 := overlayGet latest 20 t20x
          if le16At t19 0 ≠ 2 then .error .rootNotDir
          else
            let rdb := le32At t19 8
            if rdb = 0 then .error .rootNoBlock
            else
              let rd := overlayGet latest rdb (read_block d rdb)
              create_finish d jh bm t19 t20 rdb rd name now
        else
          create_finish d jh bm0 t19x t20x rdb0 (read_block d rdb0) name now

/-- Lines 477-490 of cmd_create: append one DATA record per modified block,
in order, then the COMMIT record. -/
def append_txn (d : Disk) (jh : JH) : List (Nat × Image) → Except Err (Disk × JH)
  | [] => journal_append_commit d jh
  | w :: ws =>
      match journal_append_data d jh w.1 w.2 with
      | .error e => .error e
      | .ok (d, jh) => append_txn d jh ws

/-- cmd_create: build the transaction in memory, then append it. -/
def cmd_create (d0 : Disk) (name : List Nat) (now : Nat) : Except Err Disk :=
  match create_plan d0 name now with
  | .error e => .error e
  | .ok p =>
      match append_txn p.d p.jh p.writes with
      | .error e => .error e
      | .ok (d, _) => .ok d

/-! ### cmd_install -/

/-- The COMMIT replay of cmd_install: write each pending image to its live
block, in the order recorded. -/
def applyPending (d : Disk) (pending : List LoggedImage) : Disk :=
  pending.foldl (fun d e => write_block d e.block_no e.image) d

/-- The scan loop of cmd_install: same stop conditions as the overlay scan;
DATA records accumulate in `pending` (overflow past 64 is fatal), COMMIT
replays the pending writes and counts the transaction.  Images are read
from — and commits written to — the threaded disk, like the C code's
preads and pwrites against the live file. -/
def install_loop (used : Nat) :
    Nat → Disk → Nat → List LoggedImage → Nat → Except Err (Disk × Nat)
  | 0, d, _, _, commits => .ok (d, commits)
  | fuel + 1, d, pos, pending, commits =>
    if pos + 4 ≤ used then
      let t := rec_type (jraw d) pos
      let s := rec_size (jraw d) pos
      if s < 4 then .ok (d, commits)
      else if used < pos + s then .ok (d, commits)
      else if t = 1 then
        if s = 4104 then
          if 64 ≤ pending.length then .error .txnTooLarge
          else
            install_loop used fuel d (pos + s)
              (pending ++ [⟨rec_bno (jraw d) pos, rec_img (jraw d) pos⟩]) commits
        else .ok (d, commits)
      else if t = 2 then
        if s = 4 then
          install_loop used fuel (applyPending d pending) (pos + s) [] (commits + 1)
        else .ok (d, commits)
      else .ok (d, commits)
    else .ok (d, commits)

/-- The journal reset at the end of cmd_install: clear the 16-block region
and write a fresh header with nbytes_used = 8. -/
def postJournal (d : Disk) : Disk :=
  journal_write_header (journal_clear_region d) ⟨JOURNAL_MAGIC, 8⟩

/-- cmd_install: require a valid header, scan and replay the committed
transactions, then reset the journal; returns the final disk and the
number of commits replayed. -/
def cmd_install (d0 : Disk) : Except Err (Disk × Nat) :=
  let jh := journal_read_header d0
  if !validHeaderB jh then .error .journalMissing
  else
    match install_loop jh.nbytes_used jh.nbytes_used d0 8 [] 0 with
    | .error e => .error e
    | .ok (d1, commits) => .ok (postJournal d1, commits)

/-! ### Concrete disks for scenarios and witnesses -/

/-- A freshly formatted image (spec section 8's scenario baseline): zeroed
journal region, inode bitmap with only bit 0 set, root inode (type 2
directory, links 1, direct[0] = 21) in inode-table block 19, root
directory block 21 empty, root size 0. -/
def freshDisk : Disk :=
  fun a =>
    if a = 69632 then 1
    else if a = 77824 then 2
    else if a = 77826 then 1
    else if a = 77832 then 21
    else 0

/-! ### Lemmas: find / upsert / commit_pending -/

theorem find_append_li (l1 l2 : List LoggedImage) (b : Nat) :
    logged_image_find (l1 ++ l2) b =
      match logged_image_find l1 b with
      | some x => some x
      | none => logged_image_find l2 b := by
  induction l1 with
  | nil => rfl
  | cons e es ih =>
      by_cases h : e.block_no = b <;> simp [logged_image_find, h, ih]

theorem find_replace_first_ne (arr : List LoggedImage) (bno : Nat) (img : Image)
    (b : Nat) (hb : b ≠ bno) :
    logged_image_find (replace_first arr bno img) b = logged_image_find arr b := by
  induction arr with
  | nil => rfl
  | cons e es ih =>
      unfold replace_first
      by_cases h : e.block_no = bno
      · rw [if_pos h]
        have h1 : ¬ bno = b := fun hh => hb hh.symm
        have h2 : ¬ e.block_no = b := by rw [h]; exact h1
        simp [logged_image_find, h1, h2]
      · rw [if_neg h]
        by_cases he : e.block_no = b <;> simp [logged_image_find, he, ih]

theorem find_replace_first_eq (arr : List LoggedImage) (bno : Nat) (img : Image)
    (h : has_block arr bno = true) :
    logged_image_find (replace_first arr bno img) bno = some img := by
  induction arr with
  | nil => simp [has_block] at h
  | cons e es ih =>
      by_cases he : e.block_no = bno
      · simp [replace_first, he, logged_image_find]
      · have hbe : (e.block_no == bno) = false := by simp [he]
        simp [has_block, hbe] at h
        simp [replace_first, he, logged_image_find, ih h]

theorem replace_first_length (arr : List LoggedImage) (bno : Nat) (img : Image) :
    (replace_first arr bno img).length = arr.length := by
  induction arr with
  | nil => rfl
  | cons e es ih =>
      by_cases h : e.block_no = bno <;> simp [replace_first, h, ih]

theorem find_none_of_has_block_false (arr : List LoggedImage) (b : Nat)
    (h : has_block arr b = false) :
    logged_image_find arr b = none := by
  induction arr with
  | nil => rfl
  | cons e es ih =>
      simp [has_block] at h
      simp [logged_image_find, h.1, ih (by simp [h.2])]

theorem find_upsert (arr arr' : List LoggedImage) (max bno : Nat) (img : Image)
    (h : logged_image_upsert arr max bno img = some arr') (b : Nat) :
    logged_image_find arr' b = if b = bno then some img else logged_image_find arr b := by
  unfold logged_image_upsert at h
  by_cases hany : has_block arr bno = true
  · rw [if_pos hany] at h
    rw [Option.some_inj] at h
    subst h
    by_cases hb : b = bno
    · subst hb
      simp [find_replace_first_eq arr b img hany]
    · simp [hb, find_replace_first_ne arr bno img b hb]
  · rw [if_neg hany] at h
    by_cases hlen : max ≤ arr.length
    · rw [if_pos hlen] at h
      exact absurd h (by simp)
    · rw [if_neg hlen] at h
      rw [Option.some_inj] at h
      subst h
      rw [find_append_li]
      by_cases hb : b = bno
      · subst hb
        rw [find_none_of_has_block_false arr b (by simpa using hany)]
        simp [logged_image_find]
      · have hne : ¬ bno = b := fun hh => hb hh.symm
        simp only [logged_image_find, hne, if_neg, if_false]
        cases logged_image_find arr b <;> simp [hb]

theorem upsert_some (arr : List LoggedImage) (max bno : Nat) (img : Image)
    (h : arr.length < max) :
    ∃ arr', logged_image_upsert arr max bno img = some arr'
      ∧ arr'.length ≤ arr.length + 1 := by
  by_cases hany : has_block arr bno = true
  · refine ⟨replace_first arr bno img, ?_, ?_⟩
    · unfold logged_image_upsert
      rw [if_pos hany]
    · simp [replace_first_length]
  · have hlen : ¬ max ≤ arr.length := by omega
    refine ⟨arr ++ [⟨bno, img⟩], ?_, ?_⟩
    · unfold logged_image_upsert
      rw [if_neg hany, if_neg hlen]
    · simp

theorem commit_pending_spec :
    ∀ (ps latest : List LoggedImage) (max : Nat),
      latest.length + ps.length ≤ max →
      (commit_pending ps latest max).2 = false
        ∧ (commit_pending ps latest max).1.length ≤ latest.length + ps.length
        ∧ ∀ b, logged_image_find (commit_pending ps latest max).1 b =
            match lastInP ps b with
            | some i => some i
            | none => logged_image_find latest b := by
  intro ps
  induction ps with
  | nil =>
      intro latest max _
      refine ⟨rfl, by simp [commit_pending], ?_⟩
      intro b
      simp [commit_pending, lastInP]
  | cons p ps ih =>
      intro latest max hlen
      obtain ⟨arr', harr', hlen'⟩ :=
        upsert_some latest max p.block_no p.image (by simp at hlen; omega)
      have hrec := ih arr' max (by simp at hlen ⊢; omega)
      simp only [commit_pending, harr']
      refine ⟨hrec.1, by have := hrec.2.1; simp at hlen ⊢; omega, ?_⟩
      intro b
      rw [hrec.2.2 b]
      show _ = (match lastInP (p :: ps) b with
        | some i => some i
        | none => logged_image_find latest b)
      rw [show lastInP (p :: ps) b = (match lastInP ps b with
        | some i => some i
        | none => if p.block_no = b then some p.image else none) from rfl]
      rcases lastInP ps b with _ | i
      · simp only []
        rw [find_upsert latest arr' max p.block_no p.image harr' b]
        by_cases hb : b = p.block_no
        · subst hb
          simp
        · have hpb : ¬ p.block_no = b := fun hh => hb hh.symm
          simp [hb, hpb]
      · simp

/-! ### Lemmas: the overlay scan against the declarative spec -/

theorem specOverlayD_nil (dflt : Option Image) (b : Nat) :
    specOverlayD [] dflt b = dflt := rfl

theorem specOverlayD_cons (g : List LoggedImage) (gs : List (List LoggedImage))
    (dflt : Option Image) (b : Nat) :
    specOverlayD (g :: gs) dflt b =
      specOverlayD gs (match lastInP g b with
        | some i => some i
        | none => dflt) b := rfl

/-- The central overlay lemma: with a capacity-bounded journal, the scan of
journal_collect_latest_committed computes exactly the declarative
latest-committed overlay of the record stream, for every block number.
The counting hypothesis (each DATA record costs 4104 bytes of `pos`)
makes both internal capacity branches unreachable. -/
theorem collect_loop_spec (J : Nat → Nat) (used : Nat) (hused : used ≤ 65536) :
    ∀ (fuel pos : Nat) (pending latest : List LoggedImage) (ovf : Bool),
      used ≤ fuel + pos →
      4104 * (pending.length + latest.length) + 8 ≤ pos →
      ∀ b,
        logged_image_find (collect_loop J used fuel pos pending latest 64 ovf).1 b
          = specOverlayD (groupsAux (recStreamF J used fuel pos) pending)
              (logged_image_find latest b) b := by
  intro fuel
  induction fuel with
  | zero =>
      intro pos pending latest ovf hf hinv b
      simp [collect_loop, recStreamF, groupsAux, specOverlayD_nil]
  | succ fuel ih =>
      intro pos pending latest ovf hf hinv b
      by_cases h4 : pos + 4 ≤ used
      · simp only [collect_loop, recStreamF, if_pos h4]
        by_cases hs4 : rec_size J pos < 4
        · simp [hs4, groupsAux, specOverlayD_nil]
        · simp only [if_neg hs4]
          by_cases hover : used < pos + rec_size J pos
          · simp [hover, groupsAux, specOverlayD_nil]
          · simp only [if_neg hover]
            by_cases ht1 : rec_type J pos = 1
            · simp only [if_pos ht1]
              by_cases hsz : rec_size J pos = 4104
              · simp only [if_pos hsz]
                have hcap : ¬ 32 ≤ pending.length := by omega
                simp only [if_neg hcap, groupsAux]
                exact ih (pos + rec_size J pos)
                  (pending ++ [⟨rec_bno J pos, rec_img J pos⟩]) latest ovf
                  (by omega) (by simp; omega) b
              · simp [hsz, groupsAux, specOverlayD_nil]
            · simp only [if_neg ht1]
              by_cases ht2 : rec_type J pos = 2
              · simp only [if_pos ht2]
                by_cases hsz : rec_size J pos = 4
                · simp only [if_pos hsz, groupsAux]
                  have hcp := commit_pending_spec pending latest 64 (by omega)
                  rw [ih (pos + rec_size J pos) []
                        (commit_pending pending latest 64).1
                        (ovf || (commit_pending pending latest 64).2)
                        (by omega) (by have := hcp.2.1; simp; omega) b]
                  rw [specOverlayD_cons, hcp.2.2 b]
                · simp [hsz, groupsAux, specOverlayD_nil]
              · simp [ht2, groupsAux, specOverlayD_nil]
      · simp [collect_loop, recStreamF, h4, groupsAux, specOverlayD_nil]

/-! ### Byte-level lemmas -/

theorem writeBytes_in (d : Disk) (off n : Nat) (src : Nat → Nat) (a : Nat)
    (h1 : off ≤ a) (h2 : a < off + n) :
    writeBytes d off n src a = src (a - off) := by
  unfold writeBytes
  rw [if_pos ⟨h1, h2⟩]

theorem writeBytes_out (d : Disk) (off n : Nat) (src : Nat → Nat) (a : Nat)
    (h : a < off ∨ off + n ≤ a) :
    writeBytes d off n src a = d a := by
  unfold writeBytes
  rw [if_neg (by omega)]

theorem write_block_at (d : Disk) (blk : Nat) (img : Image) (a : Nat) :
    write_block d blk img a =
      if blk * 4096 ≤ a ∧ a < blk * 4096 + 4096 then img (a - blk * 4096)
      else d a := rfl

theorem clear_fold_eq (n : Nat) (d : Disk) (a : Nat) :
    (List.range n).foldl (fun d i => write_block d (1 + i) (fun _ => 0)) d a
      = if 4096 ≤ a ∧ a < 4096 + 4096 * n then 0 else d a := by
  induction n generalizing d with
  | zero =>
      rw [if_neg (by omega)]
      rfl
  | succ n ih =>
      rw [List.range_succ, List.foldl_append]
      simp only [List.foldl_cons, List.foldl_nil]
      rw [write_block_at, ih]
      split_ifs <;> first | rfl | omega

theorem clear_region_eq (d : Disk) (a : Nat) :
    journal_clear_region d a = if 4096 ≤ a ∧ a < 69632 then 0 else d a := by
  show (List.range 16).foldl (fun d i => write_block d (1 + i) (fun _ => 0)) d a = _
  rw [clear_fold_eq]

theorem postJournal_eq (d : Disk) (a : Nat) :
    postJournal d a =
      if 4096 ≤ a ∧ a < 4104 then hdr_src JOURNAL_MAGIC 8 (a - 4096)
      else if 4096 ≤ a ∧ a < 69632 then 0
      else d a := by
  unfold postJournal journal_write_header
  show writeBytes (journal_clear_region d) JBASE 8 _ a = _
  unfold writeBytes JBASE
  rw [clear_region_eq]

theorem read_write_header (d : Disk) (jh : JH) :
    journal_read_header (journal_write_header d jh) =
      ⟨jh.magic % 4294967296, jh.nbytes_used % 4294967296⟩ := by
  unfold journal_read_header journal_write_header
  have hb : ∀ i, i < 8 →
      jraw (writeBytes d JBASE 8 (hdr_src jh.magic jh.nbytes_used)) i
        = hdr_src jh.magic jh.nbytes_used i := by
    intro i hi
    unfold jraw
    rw [writeBytes_in _ _ _ _ _ (by omega) (by omega)]
    norm_num
  have e0 := hb 0 (by norm_num)
  have e1 := hb 1 (by norm_num)
  have e2 := hb 2 (by norm_num)
  have e3 := hb 3 (by norm_num)
  have e4 := hb 4 (by norm_num)
  have e5 := hb 5 (by norm_num)
  have e6 := hb 6 (by norm_num)
  have e7 := hb 7 (by norm_num)
  unfold le32At
  norm_num [e0, e1, e2, e3, e4, e5, e6, e7, hdr_src]
  constructor <;> omega

theorem postJournal_header (d : Disk) :
    journal_read_header (postJournal d) = ⟨JOURNAL_MAGIC, 8⟩ := by
  unfold postJournal
  rw [read_write_header]
  decide

theorem postJournal_jraw_zero (d : Disk) (p : Nat) (h1 : 8 ≤ p) (h2 : p < 65536) :
    jraw (postJournal d) p = 0 := by
  show postJournal d (4096 + p) = 0
  rw [postJournal_eq]
  split_ifs with hA hB
  · exact absurd hA.2 (by omega)
  · rfl
  · exact (hB ⟨by omega, by omega⟩).elim

theorem postJournal_outside (d : Disk) (a : Nat) (h : a < 4096 ∨ 69632 ≤ a) :
    postJournal d a = d a := by
  rw [postJournal_eq]
  split_ifs with hA hB
  · exact absurd hA (by omega)
  · exact absurd hB (by omega)
  · rfl

theorem postJournal_idem_at (d : Disk) (a : Nat) :
    postJournal (postJournal d) a = postJournal d a := by
  rw [postJournal_eq (postJournal d) a]
  rw [postJournal_eq d a]
  split_ifs <;> rfl

/-! ### Install-loop lemmas -/

theorem install_loop_stop (used fuel : Nat) (d : Disk) (pos : Nat)
    (pending : List LoggedImage) (commits : Nat) (h : ¬ pos + 4 ≤ used) :
    install_loop used fuel d pos pending commits = .ok (d, commits) := by
  cases fuel with
  | zero => rfl
  | succ fuel =>
      unfold install_loop
      rw [if_neg h]

/-- The install scan never aborts under a capacity-bounded header: the
counting invariant keeps the pending array strictly below 64 entries. -/
theorem install_loop_ok (used : Nat) (hused : used ≤ 65536) :
    ∀ (fuel : Nat) (d : Disk) (pos : Nat) (pending : List LoggedImage)
      (commits : Nat),
      used ≤ fuel + pos →
      4104 * pending.length + 8 ≤ pos →
      ∃ d' c', install_loop used fuel d pos pending commits = .ok (d', c') := by
  intro fuel
  induction fuel with
  | zero =>
      intro d pos pending commits hf hinv
      exact ⟨d, commits, rfl⟩
  | succ fuel ih =>
      intro d pos pending commits hf hinv
      by_cases h4 : pos + 4 ≤ used
      · unfold install_loop
        rw [if_pos h4]
        by_cases hs4 : rec_size (jraw d) pos < 4
        · rw [if_pos hs4]; exact ⟨d, commits, rfl⟩
        · rw [if_neg hs4]
          by_cases hover : used < pos + rec_size (jraw d) pos
          · rw [if_pos hover]; exact ⟨d, commits, rfl⟩
          · rw [if_neg hover]
            by_cases ht1 : rec_type (jraw d) pos = 1
            · rw [if_pos ht1]
              by_cases hsz : rec_size (jraw d) pos = 4104
              · rw [if_pos hsz]
                have hcap : ¬ 64 ≤ pending.length := by omega
                rw [if_neg hcap]
                exact ih d (pos + rec_size (jraw d) pos) _ commits
                  (by omega) (by simp; omega)
              · rw [if_neg hsz]; exact ⟨d, commits, rfl⟩
            · rw [if_neg ht1]
              by_cases ht2 : rec_type (jraw d) pos = 2
              · rw [if_pos ht2]
                by_cases hsz : rec_size (jraw d) pos = 4
                · rw [if_pos hsz]
                  exact ih _ (pos + rec_size (jraw d) pos) [] (commits + 1)
                    (by omega) (by simp; omega)
                · rw [if_neg hsz]; exact ⟨d, commits, rfl⟩
              · rw [if_neg ht2]; exact ⟨d, commits, rfl⟩
      · exact ⟨d, commits, install_loop_stop _ _ _ _ _ _ h4⟩

/-- Number of DATA records in a record stream. -/
def dataCount : List JRec → Nat
  | [] => 0
  | .data _ _ :: rs => dataCount rs + 1
  | .commit :: rs => dataCount rs

/-- Each DATA record consumes 4104 bytes of the scanned range. -/
theorem stream_data_bound (J : Nat → Nat) (used : Nat) :
    ∀ (fuel pos : Nat), 4104 * dataCount (recStreamF J used fuel pos) ≤ used - pos := by
  intro fuel
  induction fuel with
  | zero =>
      intro pos
      simp [recStreamF, dataCount]
  | succ fuel ih =>
      intro pos
      unfold recStreamF
      by_cases h4 : pos + 4 ≤ used
      · rw [if_pos h4]
        by_cases hs4 : rec_size J pos < 4
        · simp [hs4, dataCount]
        · rw [if_neg hs4]
          by_cases hover : used < pos + rec_size J pos
          · simp [hover, dataCount]
          · rw [if_neg hover]
            by_cases ht1 : rec_type J pos = 1
            · rw [if_pos ht1]
              by_cases hsz : rec_size J pos = 4104
              · rw [if_pos hsz]
                have := ih (pos + rec_size J pos)
                simp only [dataCount]
                omega
              · simp [hsz, dataCount]
            · rw [if_neg ht1]
              by_cases ht2 : rec_type J pos = 2
              · rw [if_pos ht2]
                by_cases hsz : rec_size J pos = 4
                · rw [if_pos hsz]
                  have := ih (pos + rec_size J pos)
                  simp only [dataCount]
                  omega
                · simp [hsz, dataCount]
              · simp [ht2, dataCount]
      · simp [h4, dataCount]

/-! ### Projections of command results (used to state closed witnesses) -/

/-- Did cmd_install succeed? -/
def installOk (d : Disk) : Bool :=
  match cmd_install d with
  | .ok _ => true
  | .error _ => false

/-- The disk produced by cmd_install (the input disk on failure). -/
def installDisk (d : Disk) : Disk :=
  match cmd_install d with
  | .ok p => p.1
  | .error _ => d

/-- The number of commits reported by cmd_install (0 on failure). -/
def installCount (d : Disk) : Nat :=
  match cmd_install d with
  | .ok p => p.2
  | .error _ => 0

theorem install_eq_proj (d : Disk) (h : installOk d = true) :
    cmd_install d = .ok (installDisk d, installCount d) := by
  cases hc : cmd_install d with
  | ok p => simp [installDisk, installCount, hc]
  | error e => simp [installOk, hc] at h

/-- A disk whose journal region holds a fresh valid header and zeroes. -/
def d0J : Disk := postJournal (fun _ => 0)

theorem validHeader_bound (jh : JH) (h : validHeaderB jh = true) :
    8 ≤ jh.nbytes_used ∧ jh.nbytes_used ≤ 65536 := by
  simp [validHeaderB, CAPACITY] at h
  exact ⟨h.1.2, h.2⟩

/-- The success shape of cmd_install under a valid header. -/
theorem cmd_install_ok (d : Disk)
    (h : validHeaderB (journal_read_header d) = true) :
    ∃ dL c, install_loop (journal_read_header d).nbytes_used
        (journal_read_header d).nbytes_used d 8 [] 0 = .ok (dL, c)
      ∧ cmd_install d = .ok (postJournal dL, c) := by
  have hb := validHeader_bound _ h
  obtain ⟨dL, c, hL⟩ :=
    install_loop_ok (journal_read_header d).nbytes_used hb.2
      (journal_read_header d).nbytes_used d 8 [] 0 (by omega) (by simp)
  refine ⟨dL, c, hL, ?_⟩
  unfold cmd_install
  rw [if_neg (by simp [h])]
  rw [hL]

/-- C1: for every journal whose header is valid, the committed-view overlay
maps each block number to exactly what the declarative latest-committed
overlay of the record stream prescribes: the image from the latest
committed transaction mentioning the block (last DATA record in a
transaction winning), and nothing for untouched blocks; DATA records of
the uncommitted tail contribute nothing. -/
theorem c1_overlay_matches_spec (d : Disk)
    (h : validHeaderB (journal_read_header d) = true) (b : Nat) :
    logged_image_find
        (journal_collect_latest_committed (jraw d)
          (journal_read_header d).nbytes_used 64).1 b
      = specOverlay
          (committedGroups
            (recStream (jraw d) (journal_read_header d).nbytes_used)) b := by
  have hb := validHeader_bound _ h
  unfold journal_collect_latest_committed recStream committedGroups specOverlay
  rw [collect_loop_spec (jraw d) (journal_read_header d).nbytes_used hb.2
        (journal_read_header d).nbytes_used 8 [] [] false (by omega) (by simp) b]
  rfl

/-- Witness for C1 at a concrete valid-header disk and block 17. -/
theorem c1_witness :
    validHeaderB (journal_read_header d0J) = true
    ∧ logged_image_find
        (journal_collect_latest_committed (jraw d0J)
          (journal_read_header d0J).nbytes_used 64).1 17
      = specOverlay
          (committedGroups
            (recStream (jraw d0J) (journal_read_header d0J).nbytes_used)) 17 :=
  ⟨by decide, c1_overlay_matches_spec d0J (by decide) 17⟩

/-- C5: for every valid journal header, every run of install succeeds and
ends with the whole 16-block journal region zeroed and a fresh header
(magic 0x4A524E4C, nbytes_used = 8) at the journal base.  The
TxnTooLarge exit cannot fire because the pending array never reaches 64
entries under a capacity-bounded header. -/
theorem c5_install_always_resets_journal (d : Disk)
    (h : validHeaderB (journal_read_header d) = true) :
    installOk d = true
    ∧ journal_read_header (installDisk d) = ⟨JOURNAL_MAGIC, 8⟩
    ∧ ∀ p, 8 ≤ p → p < 65536 → jraw (installDisk d) p = 0 := by
  obtain ⟨dL, c, _, hinst⟩ := cmd_install_ok d h
  refine ⟨by simp [installOk, hinst], ?_, ?_⟩
  · rw [show installDisk d = postJournal dL by simp [installDisk, hinst]]
    exact postJournal_header dL
  · intro p h1 h2
    rw [show installDisk d = postJournal dL by simp [installDisk, hinst]]
    exact postJournal_jraw_zero dL p h1 h2

/-- Witness for C5 at a concrete valid-header disk. -/
theorem c5_witness :
    validHeaderB (journal_read_header d0J) = true
    ∧ installOk d0J = true
    ∧ journal_read_header (installDisk d0J) = ⟨JOURNAL_MAGIC, 8⟩
    ∧ jraw (installDisk d0J) 100 = 0 := by
  have hc := c5_install_always_resets_journal d0J (by decide)
  exact ⟨by decide, hc.1, hc.2.1, hc.2.2 100 (by decide) (by decide)⟩

/-- C6: running install twice in a row is the same as running it once: the
second run applies zero commits and leaves every byte of the image
unchanged (its journal reset rewrites exactly the bytes the first reset
already produced). -/
theorem c6_install_idempotent (d d1 : Disk) (n : Nat)
    (h : validHeaderB (journal_read_header d) = true)
    (h1 : cmd_install d = .ok (d1, n)) :
    cmd_install d1 = .ok (postJournal d1, 0) ∧ ∀ a, postJournal d1 a = d1 a := by
  obtain ⟨dL, c, _, hinst⟩ := cmd_install_ok d h
  rw [hinst] at h1
  have hd1 : d1 = postJournal dL := by
    injection h1 with h1'
    exact congrArg Prod.fst h1'.symm
  subst hd1
  have hh : journal_read_header (postJournal dL) = ⟨JOURNAL_MAGIC, 8⟩ :=
    postJournal_header dL
  constructor
  · unfold cmd_install
    rw [hh]
    rw [if_neg (by decide)]
    rw [show (JH.mk JOURNAL_MAGIC 8).nbytes_used = 8 from rfl]
    rw [install_loop_stop 8 8 (postJournal dL) 8 [] 0 (by omega)]
  · intro a
    exact postJournal_idem_at dL a

/-- Witness for C6: a concrete first install followed by the second. -/
theorem c6_witness :
    cmd_install (installDisk d0J) = .ok (postJournal (installDisk d0J), 0)
    ∧ postJournal (installDisk d0J) 5000 = installDisk d0J 5000 := by
  have hc := c6_install_idempotent d0J (installDisk d0J) (installCount d0J)
    (by decide) (install_eq_proj d0J (by decide))
  exact ⟨hc.1, hc.2 5000⟩

/-- C9: under a header accepted by install's validation (nbytes_used at most
65536) the record stream holds at most 15 DATA records (each costs 4104
bytes of the 65528-byte record area), so the pending array never reaches
64 entries and the TxnTooLarge exit of cmd_install is unreachable. -/
theorem c9_txn_too_large_unreachable (d : Disk)
    (h : validHeaderB (journal_read_header d) = true) :
    cmd_install d ≠ .error .txnTooLarge
    ∧ dataCount (recStream (jraw d) (journal_read_header d).nbytes_used) ≤ 15 := by
  obtain ⟨dL, c, _, hinst⟩ := cmd_install_ok d h
  have hb := validHeader_bound _ h
  constructor
  · rw [hinst]
    simp
  · have := stream_data_bound (jraw d) (journal_read_header d).nbytes_used
      (journal_read_header d).nbytes_used 8
    unfold recStream
    omega

/-- Witness for C9 at a concrete valid-header disk. -/
theorem c9_witness :
    validHeaderB (journal_read_header d0J) = true
    ∧ cmd_install d0J ≠ .error .txnTooLarge
    ∧ dataCount (recStream (jraw d0J) (journal_read_header d0J).nbytes_used) ≤ 15 := by
  have hc := c9_txn_too_large_unreachable d0J (by decide)
  exact ⟨by decide, hc.1, hc.2⟩

/-! ### Allocation lemmas (cmd_create, lines 387-415) -/

theorem find?_range'_min (p : Nat → Bool) :
    ∀ (n s i : Nat), (List.range' s n).find? p = some i →
      s ≤ i ∧ i < s + n ∧ p i = true ∧ ∀ j, s ≤ j → j < i → p j = false := by
  intro n
  induction n with
  | zero =>
      intro s i h
      simp [List.range'] at h
  | succ n ih =>
      intro s i h
      rw [List.range'_succ] at h
      by_cases hp : p s = true
      · rw [List.find?_cons_of_pos _ hp] at h
        rw [Option.some_inj] at h
        subst h
        exact ⟨le_refl s, by omega, hp, fun j h1 h2 => absurd h1 (by omega)⟩
      · rw [List.find?_cons_of_neg _ hp] at h
        obtain ⟨h1, h2, h3, h4⟩ := ih (s + 1) i h
        refine ⟨by omega, by omega, h3, ?_⟩
        intro j hj1 hj2
        by_cases hjs : j = s
        · subst hjs
          simpa using hp
        · exact h4 j (by omega) hj2

theorem find?_range'_none (p : Nat → Bool) (n s : Nat)
    (h : ∀ j, s ≤ j → j < s + n → p j = false) :
    (List.range' s n).find? p = none := by
  rw [List.find?_eq_none]
  intro j hj
  rw [List.mem_range'_1] at hj
  simp [h j hj.1 hj.2]

/-- C7: for every (possibly overlaid) inode bitmap, the allocation scan of
cmd_create picks the smallest index in 1..63 whose bitmap bit is clear;
when all of bits 1..63 are set it fails NoFreeInode; and once an inode
number is chosen, a non-free chosen inode-table slot (type field not 0)
fails CorruptBitmap. -/
theorem c7_alloc_smallest_free (bm t19 t20 : Image) :
    (∀ i, find_free_inum bm = some i →
        1 ≤ i ∧ i ≤ 63 ∧ bitmap_test bm i = false
          ∧ ∀ j, 1 ≤ j → j < i → bitmap_test bm j = true)
    ∧ ((∀ j, 1 ≤ j → j ≤ 63 → bitmap_test bm j = true) →
        alloc_inode bm t19 t20 = .error .noFreeInode)
    ∧ (∀ i, find_free_inum bm = some i → inode_slot_type t19 t20 i ≠ 0 →
        alloc_inode bm t19 t20 = .error .corruptBitmap) := by
  refine ⟨?_, ?_, ?_⟩
  · intro i h
    obtain ⟨h1, h2, h3, h4⟩ := find?_range'_min _ 63 1 i h
    refine ⟨h1, by omega, by simpa using h3, ?_⟩
    intro j hj1 hj2
    have := h4 j hj1 hj2
    simpa using this
  · intro hall
    have hnone : find_free_inum bm = none := by
      unfold find_free_inum
      exact find?_range'_none _ 63 1 (fun j h1 h2 => by simp [hall j h1 (by omega)])
    unfold alloc_inode
    rw [hnone]
  · intro i h hslot
    obtain ⟨h1, h2, _, _⟩ := find?_range'_min _ 63 1 i h
    have hred : alloc_inode bm t19 t20 =
        if 2 ≤ i / 32 then .error .outOfRange
        else if inode_slot_type t19 t20 i ≠ 0 then .error .corruptBitmap
        else .ok i := by
      unfold alloc_inode
      rw [h]
    rw [hred, if_neg (by omega), if_pos hslot]

/-- Witness for C7: the scan picks inode 1 on a bitmap with only bit 0 set;
a full bitmap yields NoFreeInode; a non-free slot yields CorruptBitmap. -/
theorem c7_witness :
    (1 ≤ 1 ∧ 1 ≤ 63 ∧ bitmap_test (fun _ => 1) 1 = false
      ∧ ∀ j, 1 ≤ j → j < 1 → bitmap_test (fun _ => 1) j = true)
    ∧ alloc_inode (fun _ => 255) (fun _ => 0) (fun _ => 0) = .error .noFreeInode
    ∧ alloc_inode (fun _ => 1) (fun _ => 1) (fun _ => 1) = .error .corruptBitmap := by
  refine ⟨?_, ?_, ?_⟩
  · exact (c7_alloc_smallest_free (fun _ => 1) (fun _ => 0) (fun _ => 0)).1 1 (by decide)
  · exact (c7_alloc_smallest_free (fun _ => 255) (fun _ => 0) (fun _ => 0)).2.1
      (by decide)
  · exact (c7_alloc_smallest_free (fun _ => 1) (fun _ => 1) (fun _ => 1)).2.2 1
      (by decide) (by decide)

/-! ### Error analysis of cmd_create (for C10) -/

theorem append_bytes_err (d : Disk) (jh : JH) (src : Nat → Nat) (n : Nat) (e : Err)
    (h : journal_append_bytes d jh src n = .error e) : e = .journalFull := by
  unfold journal_append_bytes at h
  by_cases hc : CAPACITY < jh.nbytes_used + n
  · rw [if_pos hc] at h
    injection h with h'
    exact h'.symm
  · rw [if_neg hc] at h
    cases h

theorem append_data_err (d : Disk) (jh : JH) (bno : Nat) (img : Image) (e : Err)
    (h : journal_append_data d jh bno img = .error e) : e = .journalFull := by
  unfold journal_append_data at h
  cases h1 : journal_append_bytes d jh (rh_src 1 4104) 4 with
  | error e1 =>
      rw [h1] at h
      have h' : (Except.error e1 : Except Err (Disk × JH)) = .error e := h
      injection h' with h''
      exact h'' ▸ append_bytes_err _ _ _ _ _ h1
  | ok p1 =>
      obtain ⟨da, ja⟩ := p1
      rw [h1] at h
      have h' : (match journal_append_bytes da ja (le_src bno) 4 with
          | .error e => (.error e : Except Err (Disk × JH))
          | .ok (d, jh) => journal_append_bytes d jh img 4096) = .error e := h
      cases h2 : journal_append_bytes da ja (le_src bno) 4 with
      | error e2 =>
          rw [h2] at h'
          have h'' : (Except.error e2 : Except Err (Disk × JH)) = .error e := h'
          injection h'' with h3
          exact h3 ▸ append_bytes_err _ _ _ _ _ h2
      | ok p2 =>
          obtain ⟨db, jb⟩ := p2
          rw [h2] at h'
          exact append_bytes_err _ _ _ _ _ h'

theorem append_txn_err (e : Err) :
    ∀ (ws : List (Nat × Image)) (d : Disk) (jh : JH),
      append_txn d jh ws = .error e → e = .journalFull := by
  intro ws
  induction ws with
  | nil =>
      intro d jh h
      exact append_bytes_err _ _ _ _ _ h
  | cons w ws ih =>
      intro d jh h
      unfold append_txn at h
      cases h1 : journal_append_data d jh w.1 w.2 with
      | error e1 =>
          rw [h1] at h
          have h' : (Except.error e1 : Except Err (Disk × JH)) = .error e := h
          injection h' with h''
          exact h'' ▸ append_data_err _ _ _ _ _ h1
      | ok p =>
          obtain ⟨da, ja⟩ := p
          rw [h1] at h
          exact ih da ja h

theorem alloc_inode_err (bm t19 t20 : Image) (e : Err)
    (h : alloc_inode bm t19 t20 = .error e) :
    e = .noFreeInode ∨ e = .corruptBitmap := by
  unfold alloc_inode at h
  cases hf : find_free_inum bm with
  | none =>
      rw [hf] at h
      injection h with h'
      exact Or.inl h'.symm
  | some i =>
      rw [hf] at h
      have h' : (if 2 ≤ i / 32 then (Except.error Err.outOfRange : Except Err Nat)
          else if inode_slot_type t19 t20 i ≠ 0 then Except.error Err.corruptBitmap
          else Except.ok i) = .error e := h
      obtain ⟨h1, h2, _, _⟩ := find?_range'_min _ 63 1 i hf
      rw [if_neg (by omega)] at h'
      by_cases hs : inode_slot_type t19 t20 i ≠ 0
      · rw [if_pos hs] at h'
        injection h' with h''
        exact Or.inr h''.symm
      · rw [if_neg hs] at h'
        cases h'

theorem create_finish_err (d : Disk) (jh : JH) (bm t19 t20 : Image) (rdb : Nat)
    (rd : Image) (name : List Nat) (now : Nat) (e : Err)
    (h : create_finish d jh bm t19 t20 rdb rd name now = .error e) :
    e = .noFreeInode ∨ e = .corruptBitmap ∨ e = .dirFull ∨ e = .fileExists
      ∨ e = .journalFull := by
  unfold create_finish at h
  cases ha : alloc_inode bm t19 t20 with
  | error e1 =>
      rw [ha] at h
      have h' : (Except.error e1 : Except Err Plan) = .error e := h
      injection h' with h''
      subst h''
      rcases alloc_inode_err _ _ _ _ ha with h1 | h1
      · exact Or.inl h1
      · exact Or.inr (Or.inl h1)
  | ok i =>
      rw [ha] at h
      simp only [] at h
      split_ifs at h with h1 h2 h3 <;>
        (injection h with h'; subst h'; simp)

theorem create_plan_err (d : Disk) (name : List Nat) (now : Nat) (e : Err)
    (h : create_plan d name now = .error e) : e ≠ .outOfRange := by
  intro hx
  subst hx
  simp only [create_plan] at h
  split_ifs at h with h1 h2 h3 h4 h5 h6 h7
  all_goals first
    | (injection h with h'; cases h')
    | (rcases create_finish_err _ _ _ _ _ _ _ _ _ _ h with h' | h' | h' | h' | h' <;>
        cases h')

/-- C10: every inode number the allocation scan can produce lies in 1..63,
so its inode-table block index is 0 or 1, and the "inode index out of
range" exit of cmd_create can never be taken. -/
theorem c10_out_of_range_unreachable :
    (∀ (bm : Image) (i : Nat), find_free_inum bm = some i →
        1 ≤ i ∧ i ≤ 63 ∧ i / 32 ≤ 1)
    ∧ ∀ (d : Disk) (name : List Nat) (now : Nat),
        cmd_create d name now ≠ .error .outOfRange := by
  constructor
  · intro bm i h
    obtain ⟨h1, h2, _, _⟩ := find?_range'_min _ 63 1 i h
    exact ⟨h1, by omega, by omega⟩
  · intro d name now h
    unfold cmd_create at h
    cases hp : create_plan d name now with
    | error e =>
        rw [hp] at h
        have h' : (Except.error e : Except Err Disk) = .error .outOfRange := h
        injection h' with h''
        exact create_plan_err _ _ _ _ hp h''
    | ok p =>
        rw [hp] at h
        have h2 : (match append_txn p.d p.jh p.writes with
            | Except.error e => (Except.error e : Except Err Disk)
            | Except.ok (d, _) => Except.ok d) = .error .outOfRange := h
        cases ht : append_txn p.d p.jh p.writes with
        | error e =>
            rw [ht] at h2
            have h' : (Except.error e : Except Err Disk) = .error .outOfRange := h2
            injection h' with h''
            have := append_txn_err _ _ _ _ ht
            rw [this] at h''
            cases h''
        | ok q =>
            obtain ⟨dq, jq⟩ := q
            rw [ht] at h2
            have h' : (Except.ok dq : Except Err Disk) = .error .outOfRange := h2
            cases h'

/-- Witness for C10: the scan on a bitmap with only bit 0 set produces inode
number 1, in range; and a concrete cmd_create run cannot report the
out-of-range exit. -/
theorem c10_witness :
    (1 ≤ 1 ∧ 1 ≤ 63 ∧ 1 / 32 ≤ 1)
    ∧ cmd_create freshDisk [97] 0 ≠ .error .outOfRange := by
  refine ⟨?_, ?_⟩
  · exact c10_out_of_range_unreachable.1 (fun _ => 1) 1 (by decide)
  · exact c10_out_of_range_unreachable.2 freshDisk [97] 0

/-! ### Truncation and install-replay lemmas (for C2) -/

/-- Truncating `nbytes_used` always yields a prefix of the longer stream:
every stop condition is monotone in the used-byte count. -/
theorem recStreamF_trunc (J : Nat → Nat) (u u' : Nat) (hle : u' ≤ u) :
    ∀ (f1 f2 pos : Nat), u' ≤ f1 + pos → u ≤ f2 + pos →
      ∃ t, recStreamF J u f2 pos = recStreamF J u' f1 pos ++ t := by
  intro f1
  induction f1 with
  | zero =>
      intro f2 pos h1 h2
      exact ⟨recStreamF J u f2 pos, by simp [recStreamF]⟩
  | succ f1 ih =>
      intro f2 pos h1 h2
      by_cases h4 : pos + 4 ≤ u'
      · have h4u : pos + 4 ≤ u := by omega
        cases f2 with
        | zero => exact absurd h2 (by omega)
        | succ f2 =>
            unfold recStreamF
            rw [if_pos h4, if_pos h4u]
            by_cases hs4 : rec_size J pos < 4
            · rw [if_pos hs4, if_pos hs4]
              exact ⟨[], by simp⟩
            · rw [if_neg hs4, if_neg hs4]
              by_cases hover : u' < pos + rec_size J pos
              · rw [if_pos hover]
                simp only [List.nil_append]
                exact ⟨_, rfl⟩
              · have hoveru : ¬ u < pos + rec_size J pos := by omega
                rw [if_neg hover, if_neg hoveru]
                by_cases ht1 : rec_type J pos = 1
                · rw [if_pos ht1, if_pos ht1]
                  by_cases hsz : rec_size J pos = 4104
                  · rw [if_pos hsz, if_pos hsz]
                    obtain ⟨t, ht⟩ := ih f2 (pos + rec_size J pos)
                      (by omega) (by omega)
                    exact ⟨t, by rw [ht, List.cons_append]⟩
                  · rw [if_neg hsz, if_neg hsz]
                    exact ⟨[], by simp⟩
                · rw [if_neg ht1, if_neg ht1]
                  by_cases ht2 : rec_type J pos = 2
                  · rw [if_pos ht2, if_pos ht2]
                    by_cases hsz : rec_size J pos = 4
                    · rw [if_pos hsz, if_pos hsz]
                      obtain ⟨t, ht⟩ := ih f2 (pos + rec_size J pos)
                        (by omega) (by omega)
                      exact ⟨t, by rw [ht, List.cons_append]⟩
                    · rw [if_neg hsz, if_neg hsz]
                      exact ⟨[], by simp⟩
                  · rw [if_neg ht2, if_neg ht2]
                    exact ⟨[], by simp⟩
      · rw [show recStreamF J u' (f1 + 1) pos = [] from by
          unfold recStreamF; rw [if_neg h4]]
        exact ⟨recStreamF J u f2 pos, by simp⟩

/-- Streams only depend on journal bytes 8..65535 (reduced mod 256). -/
theorem recStreamF_congr (J1 J2 : Nat → Nat) (used : Nat) (hused : used ≤ 65536)
    (hb : ∀ p, 8 ≤ p → p < 65536 → J1 p % 256 = J2 p % 256) :
    ∀ (fuel pos : Nat), 8 ≤ pos →
      recStreamF J1 used fuel pos = recStreamF J2 used fuel pos := by
  intro fuel
  induction fuel with
  | zero =>
      intro pos _
      rfl
  | succ fuel ih =>
      intro pos hpos
      unfold recStreamF
      by_cases h4 : pos + 4 ≤ used
      · rw [if_pos h4, if_pos h4]
        have ht : rec_type J1 pos = rec_type J2 pos := by
          unfold rec_type le16At
          rw [hb pos (by omega) (by omega), hb (pos + 1) (by omega) (by omega)]
        have hs : rec_size J1 pos = rec_size J2 pos := by
          unfold rec_size le16At
          rw [hb (pos + 2) (by omega) (by omega), hb (pos + 3) (by omega) (by omega)]
        rw [ht, hs]
        by_cases hs4 : rec_size J2 pos < 4
        · rw [if_pos hs4, if_pos hs4]
        · rw [if_neg hs4, if_neg hs4]
          by_cases hover : used < pos + rec_size J2 pos
          · rw [if_pos hover, if_pos hover]
          · rw [if_neg hover, if_neg hover]
            by_cases ht1 : rec_type J2 pos = 1
            · rw [if_pos ht1, if_pos ht1]
              by_cases hsz : rec_size J2 pos = 4104
              · rw [if_pos hsz, if_pos hsz]
                have hbno : rec_bno J1 pos = rec_bno J2 pos := by
                  unfold rec_bno le32At
                  rw [hb (pos + 4) (by omega) (by omega),
                      hb (pos + 4 + 1) (by omega) (by omega),
                      hb (pos + 4 + 2) (by omega) (by omega),
                      hb (pos + 4 + 3) (by omega) (by omega)]
                have himg : rec_img J1 pos = rec_img J2 pos := by
                  funext i
                  unfold rec_img
                  by_cases hi : i < 4096
                  · rw [if_pos hi, if_pos hi]
                    exact hb (pos + 8 + i) (by omega) (by omega)
                  · rw [if_neg hi, if_neg hi]
                rw [hbno, himg, ih (pos + rec_size J2 pos) (by omega)]
              · rw [if_neg hsz, if_neg hsz]
            · rw [if_neg ht1, if_neg ht1]
              by_cases ht2 : rec_type J2 pos = 2
              · rw [if_pos ht2, if_pos ht2]
                by_cases hsz : rec_size J2 pos = 4
                · rw [if_pos hsz, if_pos hsz]
                  rw [ih (pos + rec_size J2 pos) (by omega)]
                · rw [if_neg hsz, if_neg hsz]
              · rw [if_neg ht2, if_neg ht2]
      · rw [if_neg h4, if_neg h4]

/-- A block number whose 4096-byte block does not overlap the journal
region (block 0 below it, blocks 17 and up above it). -/
def jsafeBlock (b : Nat) : Prop := b = 0 ∨ 17 ≤ b

/-- Replaying all committed groups in commit order. -/
def applyGroups (d : Disk) (gs : List (List LoggedImage)) : Disk :=
  gs.foldl (fun d g => applyPending d g) d

theorem write_block_jraw (d : Disk) (b : Nat) (img : Image) (p : Nat)
    (hb : jsafeBlock b) (hp : p < 65536) :
    jraw (write_block d b img) p = jraw d p := by
  show write_block d b img (4096 + p) = d (4096 + p)
  rw [write_block_at]
  rcases hb with hb | hb
  · rw [if_neg (by omega)]
  · rw [if_neg (by omega)]

theorem applyPending_jraw (pending : List LoggedImage)
    (h : ∀ e ∈ pending, jsafeBlock e.block_no) :
    ∀ (d : Disk) (p : Nat), p < 65536 →
      jraw (applyPending d pending) p = jraw d p := by
  induction pending with
  | nil =>
      intro d p _
      rfl
  | cons e es ih =>
      intro d p hp
      show jraw (applyPending (write_block d e.block_no e.image) es) p = _
      rw [ih (fun x hx => h x (by simp [hx])) _ p hp]
      exact write_block_jraw d e.block_no e.image p (h e (by simp)) hp

/-- The install scan replays exactly the committed groups of the record
stream (in commit order) and counts one commit per group, provided no
replayed block overlaps the journal region (spec section 3: the journal
region is owned by the tool; create transactions only touch file-system
blocks). -/
theorem install_loop_stream (used : Nat) (hused : used ≤ 65536) :
    ∀ (fuel : Nat) (d : Disk) (pos : Nat) (pending : List LoggedImage)
      (commits : Nat),
      used ≤ fuel + pos →
      4104 * pending.length + 8 ≤ pos →
      (∀ r ∈ recStreamF (jraw d) used fuel pos, ∀ b i, r = .data b i → jsafeBlock b) →
      (∀ e ∈ pending, jsafeBlock e.block_no) →
      install_loop used fuel d pos pending commits
        = .ok (applyGroups d (groupsAux (recStreamF (jraw d) used fuel pos) pending),
               commits + (groupsAux (recStreamF (jraw d) used fuel pos) pending).length) := by
  intro fuel
  induction fuel with
  | zero =>
      intro d pos pending commits hf hinv hsafe hpend
      simp [install_loop, recStreamF, groupsAux, applyGroups]
  | succ fuel ih =>
      intro d pos pending commits hf hinv hsafe hpend
      by_cases h4 : pos + 4 ≤ used
      · simp only [install_loop]
        rw [if_pos h4]
        simp only [recStreamF] at hsafe ⊢
        simp only [if_pos h4] at hsafe ⊢
        by_cases hs4 : rec_size (jraw d) pos < 4
        · simp only [if_pos hs4] at hsafe ⊢
          simp [groupsAux, applyGroups]
        · simp only [if_neg hs4] at hsafe ⊢
          by_cases hover : used < pos + rec_size (jraw d) pos
          · simp only [if_pos hover] at hsafe ⊢
            simp [groupsAux, applyGroups]
          · simp only [if_neg hover] at hsafe ⊢
            by_cases ht1 : rec_type (jraw d) pos = 1
            · simp only [if_pos ht1] at hsafe ⊢
              by_cases hsz : rec_size (jraw d) pos = 4104
              · simp only [if_pos hsz] at hsafe ⊢
                have hcap : ¬ 64 ≤ pending.length := by omega
                rw [if_neg hcap]
                simp only [groupsAux]
                refine ih d (pos + rec_size (jraw d) pos)
                  (pending ++ [⟨rec_bno (jraw d) pos, rec_img (jraw d) pos⟩])
                  commits (by omega) (by simp; omega)
                  (fun r hr => hsafe r (by simp [hr]))
                  ?_
                intro e he
                rw [List.mem_append] at he
                rcases he with he | he
                · exact hpend e he
                · rw [List.mem_singleton] at he
                  subst he
                  exact hsafe (.data (rec_bno (jraw d) pos) (rec_img (jraw d) pos))
                    (by simp) _ _ rfl
              · simp only [if_neg hsz] at hsafe ⊢
                simp [groupsAux, applyGroups]
            · simp only [if_neg ht1] at hsafe ⊢
              by_cases ht2 : rec_type (jraw d) pos = 2
              · simp only [if_pos ht2] at hsafe ⊢
                by_cases hsz : rec_size (jraw d) pos = 4
                · simp only [if_pos hsz] at hsafe ⊢
                  have hjr : ∀ p, 8 ≤ p → p < 65536 →
                      jraw (applyPending d pending) p % 256 = jraw d p % 256 := by
                    intro p _ hp
                    rw [applyPending_jraw pending hpend d p hp]
                  have hstr : recStreamF (jraw (applyPending d pending)) used fuel
                        (pos + rec_size (jraw d) pos)
                      = recStreamF (jraw d) used fuel (pos + rec_size (jraw d) pos) :=
                    recStreamF_congr _ _ used hused hjr fuel _ (by omega)
                  rw [ih (applyPending d pending) (pos + rec_size (jraw d) pos) []
                        (commits + 1) (by omega) (by simp; omega)
                        (by rw [hstr]; exact fun r hr => hsafe r (by simp [hr]))
                        (by simp)]
                  rw [hstr]
                  simp only [groupsAux]
                  have harith :
                      commits + 1
                          + (groupsAux (recStreamF (jraw d) used fuel
                              (pos + rec_size (jraw d) pos)) []).length
                        = commits
                          + ((groupsAux (recStreamF (jraw d) used fuel
                              (pos + rec_size (jraw d) pos)) []).length + 1) := by
                    omega
                  rw [harith]
                  rfl
                · simp only [if_neg hsz] at hsafe ⊢
                  simp [groupsAux, applyGroups]
              · simp only [if_neg ht2] at hsafe ⊢
                simp [groupsAux, applyGroups]
      · simp only [install_loop, recStreamF]
        simp only [if_neg h4]
        simp [groupsAux, applyGroups]

/-- cmd_install under a valid header replays exactly the committed groups of
the record stream, in order, then resets the journal, reporting one
commit per group. -/
theorem cmd_install_stream (d : Disk)
    (h : validHeaderB (journal_read_header d) = true)
    (hsafe : ∀ r ∈ recStream (jraw d) (journal_read_header d).nbytes_used,
        ∀ b i, r = JRec.data b i → jsafeBlock b) :
    cmd_install d = .ok
      (postJournal (applyGroups d (committedGroups
          (recStream (jraw d) (journal_read_header d).nbytes_used))),
       (committedGroups (recStream (jraw d) (journal_read_header d).nbytes_used)).length) := by
  have hb := validHeader_bound _ h
  unfold cmd_install
  rw [if_neg (by simp [h])]
  rw [install_loop_stream (journal_read_header d).nbytes_used hb.2
      (journal_read_header d).nbytes_used d 8 [] 0 (by omega) (by simp)
      hsafe (by simp)]
  simp [recStream, committedGroups]

/-- C2: truncating the journal to any byte count u' at least 8 (the byte
content is unchanged; only the header's nbytes_used shrinks) yields a
record stream that is a prefix of the full stream; the overlay of the
truncated journal is exactly the declarative overlay of the transactions
whose COMMIT lies within u' (a transaction without its COMMIT inside u'
is in no committed group and so contributes nothing); and install on the
truncated journal writes exactly those committed groups and nothing of
any truncated transaction (given that replayed blocks do not overlap the
journal region, which the tool owns exclusively). -/
theorem c2_truncation_invisible (d : Disk) (u u' : Nat)
    (hu : u ≤ 65536) (h8 : 8 ≤ u') (hle : u' ≤ u) :
    (∃ t, recStreamF (jraw d) u u 8 = recStreamF (jraw d) u' u' 8 ++ t)
    ∧ (∀ b, logged_image_find (journal_collect_latest_committed (jraw d) u' 64).1 b
        = specOverlay (committedGroups (recStreamF (jraw d) u' u' 8)) b)
    ∧ ((∀ r ∈ recStreamF (jraw d) u' u' 8, ∀ b i, r = JRec.data b i → jsafeBlock b) →
        cmd_install (journal_write_header d ⟨JOURNAL_MAGIC, u'⟩)
          = .ok (postJournal (applyGroups (journal_write_header d ⟨JOURNAL_MAGIC, u'⟩)
                  (committedGroups (recStreamF (jraw d) u' u' 8))),
                 (committedGroups (recStreamF (jraw d) u' u' 8)).length)) := by
  refine ⟨?_, ?_, ?_⟩
  · exact recStreamF_trunc (jraw d) u u' hle u' u 8 (by omega) (by omega)
  · intro b
    unfold journal_collect_latest_committed
    rw [collect_loop_spec (jraw d) u' (by omega) u' 8 [] [] false (by omega) (by simp) b]
    rfl
  · intro hsafe
    have hh : journal_read_header (journal_write_header d ⟨JOURNAL_MAGIC, u'⟩)
        = ⟨JOURNAL_MAGIC, u'⟩ := by
      rw [read_write_header]
      have h1 : JOURNAL_MAGIC % 4294967296 = JOURNAL_MAGIC := by norm_num [JOURNAL_MAGIC]
      have h2 : u' % 4294967296 = u' := Nat.mod_eq_of_lt (by omega)
      show JH.mk (JOURNAL_MAGIC % 4294967296) (u' % 4294967296) = _
      rw [h1, h2]
    have hjb : ∀ p, 8 ≤ p → p < 65536 →
        jraw (journal_write_header d ⟨JOURNAL_MAGIC, u'⟩) p % 256 = jraw d p % 256 := by
      intro p hp _
      show journal_write_header d ⟨JOURNAL_MAGIC, u'⟩ (4096 + p) % 256 = _
      unfold journal_write_header
      rw [writeBytes_out _ _ _ _ _ (by show _ ∨ JBASE + 8 ≤ _; right; show 4096 + 8 ≤ _; omega)]
      rfl
    have hstr : recStream (jraw (journal_write_header d ⟨JOURNAL_MAGIC, u'⟩)) u'
        = recStreamF (jraw d) u' u' 8 :=
      recStreamF_congr _ _ u' (by omega) hjb u' 8 (by omega)
    have hv : validHeaderB (journal_read_header
        (journal_write_header d ⟨JOURNAL_MAGIC, u'⟩)) = true := by
      rw [hh]
      simp [validHeaderB, CAPACITY]
      omega
    have := cmd_install_stream (journal_write_header d ⟨JOURNAL_MAGIC, u'⟩) hv
      (by rw [hh]
          show ∀ r ∈ recStream (jraw _) u', _
          rw [hstr]
          exact hsafe)
    rw [hh] at this
    rw [show (JH.mk JOURNAL_MAGIC u').nbytes_used = u' from rfl] at this
    rw [hstr] at this
    exact this

/-- Executable block-safety of a record stream: every DATA record's block
number misses the journal region. -/
def streamSafeB : List JRec → Bool
  | [] => true
  | .data b _ :: rs => (b == 0 || 17 ≤ b) && streamSafeB rs
  | .commit :: rs => streamSafeB rs

theorem streamSafeB_sound (rs : List JRec) (h : streamSafeB rs = true) :
    ∀ r ∈ rs, ∀ b i, r = JRec.data b i → jsafeBlock b := by
  induction rs with
  | nil => simp
  | cons r rs ih =>
      intro r' hr' b i he
      cases hr : r with
      | data b0 i0 =>
          subst hr
          simp only [streamSafeB, Bool.and_eq_true] at h
          rcases List.mem_cons.mp hr' with h1 | h1
          · subst h1
            injection he with hb hi
            subst hb
            rcases Bool.or_eq_true _ _ |>.mp h.1 with h2 | h2
            · exact Or.inl (by simpa using h2)
            · exact Or.inr (by simpa using h2)
          · exact ih h.2 r' h1 b i he
      | commit =>
          subst hr
          simp only [streamSafeB] at h
          rcases List.mem_cons.mp hr' with h1 | h1
          · subst h1
            cases he
          · exact ih h r' h1 b i he

/-! ### Concrete serialized journals (witness and counterexample inputs) -/

/-- Serialized DATA record: header (type 1, size 4104), block number, then a
4096-byte image whose bytes all equal `v`. -/
def sdata (b v : Nat) : Nat → Nat :=
  fun p => if p < 4 then rh_src 1 4104 p else if p < 8 then le_src b (p - 4) else v

/-- Serialized COMMIT record. -/
def scommit : Nat → Nat := rh_src 2 4

/-- Byte `p` of a concatenation of sized byte chunks. -/
def serL : List (Nat × (Nat → Nat)) → Nat → Nat
  | [], _ => 0
  | (n, f) :: rs, p => if p < n then f p else serL rs (p - n)

/-- A disk holding a journal with one DATA record for block 17 and one
COMMIT: header nbytes_used = 4116 = 8 + 4104 + 4. -/
def c2wd : Disk :=
  fun a =>
    if a < 4096 then 0
    else if a < 4104 then hdr_src JOURNAL_MAGIC 4116 (a - 4096)
    else serL [(4104, sdata 17 0), (4, scommit)] (a - 4104)

/-- Witness for C2: truncating the one-transaction journal to 4112 bytes
keeps the DATA record in the stream but drops its COMMIT, so the overlay
is empty and install replays nothing (zero commits). -/
theorem c2_witness :
    logged_image_find (journal_collect_latest_committed (jraw c2wd) 4112 64).1 17
      = specOverlay (committedGroups (recStreamF (jraw c2wd) 4112 4112 8)) 17
    ∧ cmd_install (journal_write_header c2wd ⟨JOURNAL_MAGIC, 4112⟩)
      = .ok (postJournal (applyGroups (journal_write_header c2wd ⟨JOURNAL_MAGIC, 4112⟩)
              (committedGroups (recStreamF (jraw c2wd) 4112 4112 8))),
             (committedGroups (recStreamF (jraw c2wd) 4112 4112 8)).length) := by
  have hc := c2_truncation_invisible c2wd 4116 4112 (by norm_num) (by norm_num) (by norm_num)
  exact ⟨hc.2.1 17, hc.2.2 (streamSafeB_sound _ (by decide))⟩

/-! ### Append-path lemmas (for C3) -/

theorem append_bytes_shape (d : Disk) (jh : JH) (src : Nat → Nat) (n : Nat)
    (d' : Disk) (jh' : JH) (h8 : 8 ≤ jh.nbytes_used)
    (h : journal_append_bytes d jh src n = .ok (d', jh')) :
    jh' = ⟨jh.magic, jh.nbytes_used + n⟩
    ∧ jh.nbytes_used + n ≤ 65536
    ∧ (∀ a, a < 4096 ∨ 69632 ≤ a → d' a = d a)
    ∧ (∀ p, 8 ≤ p → p < jh.nbytes_used → jraw d' p = jraw d p)
    ∧ (∀ k, k < n → jraw d' (jh.nbytes_used + k) = src k)
    ∧ journal_read_header d'
        = ⟨jh.magic % 4294967296, (jh.nbytes_used + n) % 4294967296⟩ := by
  unfold journal_append_bytes at h
  by_cases hc : CAPACITY < jh.nbytes_used + n
  · rw [if_pos hc] at h
    cases h
  · rw [if_neg hc] at h
    have hc2 : ¬ (65536 < jh.nbytes_used + n) := hc
    injection h with h'
    have h1 : journal_write_header (writeBytes d (JBASE + jh.nbytes_used) n src)
        ⟨jh.magic, jh.nbytes_used + n⟩ = d' := congrArg Prod.fst h'
    have h2 : (⟨jh.magic, jh.nbytes_used + n⟩ : JH) = jh' := congrArg Prod.snd h'
    subst h1
    subst h2
    refine ⟨rfl, by omega, ?_, ?_, ?_, ?_⟩
    · intro a ha
      unfold journal_write_header
      rw [writeBytes_out _ _ _ _ _ (by unfold JBASE; omega)]
      rw [writeBytes_out _ _ _ _ _ (by unfold JBASE; omega)]
    · intro p hp1 hp2
      show journal_write_header _ _ (4096 + p) = d (4096 + p)
      unfold journal_write_header
      rw [writeBytes_out _ _ _ _ _ (by unfold JBASE; omega)]
      rw [writeBytes_out _ _ _ _ _ (by unfold JBASE; omega)]
    · intro k hk
      show journal_write_header _ _ (4096 + (jh.nbytes_used + k)) = src k
      unfold journal_write_header
      rw [writeBytes_out _ _ _ _ _ (by unfold JBASE; omega)]
      rw [writeBytes_in _ _ _ _ _ (by unfold JBASE; omega) (by unfold JBASE; omega)]
      rw [show 4096 + (jh.nbytes_used + k) - (JBASE + jh.nbytes_used) = k from by
        unfold JBASE; omega]
    · exact read_write_header _ _

theorem append_data_shape (d : Disk) (jh : JH) (bno : Nat) (img : Image)
    (d' : Disk) (jh' : JH) (h8 : 8 ≤ jh.nbytes_used)
    (h : journal_append_data d jh bno img = .ok (d', jh')) :
    jh' = ⟨jh.magic, jh.nbytes_used + 4104⟩
    ∧ jh.nbytes_used + 4104 ≤ 65536
    ∧ (∀ a, a < 4096 ∨ 69632 ≤ a → d' a = d a)
    ∧ (∀ p, 8 ≤ p → p < jh.nbytes_used → jraw d' p = jraw d p)
    ∧ (∀ k, k < 4 → jraw d' (jh.nbytes_used + k) = rh_src 1 4104 k)
    ∧ journal_read_header d'
        = ⟨jh.magic % 4294967296, (jh.nbytes_used + 4104) % 4294967296⟩ := by
  unfold journal_append_data at h
  cases h1 : journal_append_bytes d jh (rh_src 1 4104) 4 with
  | error e =>
      rw [h1] at h
      cases h
  | ok p1 =>
      obtain ⟨d1, j1⟩ := p1
      rw [h1] at h
      obtain ⟨hj1, hb1, hf1, ho1, hn1, _⟩ := append_bytes_shape d jh _ 4 d1 j1 h8 h1
      have hu1 : j1.nbytes_used = jh.nbytes_used + 4 := by rw [hj1]
      have hm1 : j1.magic = jh.magic := by rw [hj1]
      have h' : (match journal_append_bytes d1 j1 (le_src bno) 4 with
          | Except.error e => (Except.error e : Except Err (Disk × JH))
          | Except.ok (d, jh) => journal_append_bytes d jh img 4096) = .ok (d', jh') := h
      cases h2 : journal_append_bytes d1 j1 (le_src bno) 4 with
      | error e =>
          rw [h2] at h'
          cases h'
      | ok p2 =>
          obtain ⟨d2, j2⟩ := p2
          rw [h2] at h'
          obtain ⟨hj2, hb2, hf2, ho2, hn2, _⟩ :=
            append_bytes_shape d1 j1 _ 4 d2 j2 (by omega) h2
          have hu2 : j2.nbytes_used = j1.nbytes_used + 4 := by rw [hj2]
          have hm2 : j2.magic = j1.magic := by rw [hj2]
          obtain ⟨hj3, hb3, hf3, ho3, hn3, hh3⟩ :=
            append_bytes_shape d2 j2 _ 4096 d' jh' (by omega) h'
          refine ⟨?_, by omega, ?_, ?_, ?_, ?_⟩
          · rw [hj3, hm2, hm1]
            have harith : j2.nbytes_used + 4096 = jh.nbytes_used + 4104 := by omega
            rw [harith]
          · intro a ha
            rw [hf3 a ha, hf2 a ha, hf1 a ha]
          · intro p hp1 hp2
            rw [ho3 p hp1 (by omega), ho2 p hp1 (by omega), ho1 p hp1 hp2]
          · intro k hk
            rw [ho3 (jh.nbytes_used + k) (by omega) (by omega),
                ho2 (jh.nbytes_used + k) (by omega) (by omega)]
            exact hn1 k hk
          · rw [hh3, hm2, hm1]
            have harith : j2.nbytes_used + 4096 = jh.nbytes_used + 4104 := by omega
            rw [harith]

theorem create_finish_shape (d : Disk) (jh : JH) (bm t19 t20 : Image) (rdb : Nat)
    (rd : Image) (name : List Nat) (now : Nat) (p : Plan)
    (h : create_finish d jh bm t19 t20 rdb rd name now = .ok p) :
    p.d = d ∧ p.jh = jh ∧ (p.writes.length = 3 ∨ p.writes.length = 4) := by
  simp only [create_finish] at h
  split at h
  · cases h
  · split_ifs at h
    all_goals first
      | exact Except.noConfusion h
      | (injection h with h'
         subst h'
         exact ⟨rfl, rfl, by first | (left; rfl) | (right; rfl)⟩)

theorem create_plan_shape (d0 : Disk) (name : List Nat) (now : Nat) (p : Plan)
    (h : create_plan d0 name now = .ok p) :
    p.d = (journal_init_if_needed d0).1 ∧ p.jh = (journal_init_if_needed d0).2
    ∧ (p.writes.length = 3 ∨ p.writes.length = 4) := by
  simp only [create_plan] at h
  split_ifs at h with h1 h2 h3 h4 h5 h6 h7
  all_goals first
    | cases h
    | exact create_finish_shape _ _ _ _ _ _ _ _ _ _ h

theorem init_shape (d0 : Disk) :
    validHeaderB (journal_init_if_needed d0).2 = true
    ∧ (∀ a, a < 4096 ∨ 69632 ≤ a → (journal_init_if_needed d0).1 a = d0 a) := by
  simp only [journal_init_if_needed]
  by_cases hv : validHeaderB (journal_read_header d0) = true
  · rw [if_pos hv]
    exact ⟨hv, fun a _ => rfl⟩
  · rw [if_neg hv]
    refine ⟨?_, ?_⟩
    · show validHeaderB ⟨JOURNAL_MAGIC, 8⟩ = true
      decide
    · intro a ha
      exact postJournal_outside d0 a ha

theorem append_txn_preserves :
    ∀ (ws : List (Nat × Image)) (d : Disk) (jh : JH) (d' : Disk) (jh' : JH),
      8 ≤ jh.nbytes_used →
      append_txn d jh ws = .ok (d', jh') →
      ∀ p, 8 ≤ p → p < jh.nbytes_used → jraw d' p = jraw d p := by
  intro ws
  induction ws with
  | nil =>
      intro d jh d' jh' h8 h p hp1 hp2
      obtain ⟨_, _, _, ho, _, _⟩ := append_bytes_shape d jh _ 4 d' jh' h8 h
      exact ho p hp1 hp2
  | cons w ws ih =>
      intro d jh d' jh' h8 h p hp1 hp2
      unfold append_txn at h
      cases h1 : journal_append_data d jh w.1 w.2 with
      | error e =>
          rw [h1] at h
          cases h
      | ok p1 =>
          obtain ⟨d1, j1⟩ := p1
          rw [h1] at h
          obtain ⟨hj1, _, _, ho1, _, _⟩ := append_data_shape d jh w.1 w.2 d1 j1 h8 h1
          have hu1 : j1.nbytes_used = jh.nbytes_used + 4104 := by rw [hj1]
          rw [ih d1 j1 d' jh' (by omega) h p hp1 (by omega)]
          exact ho1 p hp1 hp2

theorem append_txn_shape :
    ∀ (ws : List (Nat × Image)) (d : Disk) (jh : JH) (d' : Disk) (jh' : JH),
      8 ≤ jh.nbytes_used →
      append_txn d jh ws = .ok (d', jh') →
      jh'.nbytes_used = jh.nbytes_used + (ws.length * 4104 + 4)
      ∧ jh'.nbytes_used ≤ 65536
      ∧ (∀ a, a < 4096 ∨ 69632 ≤ a → d' a = d a)
      ∧ journal_read_header d'
          = ⟨jh.magic % 4294967296, jh'.nbytes_used % 4294967296⟩
      ∧ ∀ fuel, jh'.nbytes_used ≤ fuel + jh.nbytes_used →
          ∃ l, recStreamF (jraw d') jh'.nbytes_used fuel jh.nbytes_used
              = l ++ [JRec.commit]
            ∧ l.length = ws.length
            ∧ ∀ r ∈ l, ∃ b i, r = JRec.data b i := by
  intro ws
  induction ws with
  | nil =>
      intro d jh d' jh' h8 h
      obtain ⟨hj, hb, hf, ho, hn, hh⟩ := append_bytes_shape d jh _ 4 d' jh' h8 h
      have hu : jh'.nbytes_used = jh.nbytes_used + 4 := by rw [hj]
      have hm : jh'.magic = jh.magic := by rw [hj]
      refine ⟨by rw [List.length_nil]; omega, by omega, hf, by rw [hh, hu], ?_⟩
      intro fuel hfu
      refine ⟨[], ?_, rfl, by simp⟩
      have hb0 : jraw d' jh.nbytes_used = 2 := by
        have := hn 0 (by omega)
        rw [Nat.add_zero] at this
        rw [this]
        decide
      have hb1 : jraw d' (jh.nbytes_used + 1) = 0 := by
        rw [hn 1 (by omega)]
        decide
      have hb2 : jraw d' (jh.nbytes_used + 2) = 4 := by
        rw [hn 2 (by omega)]
        decide
      have hb3 : jraw d' (jh.nbytes_used + 3) = 0 := by
        rw [hn 3 (by omega)]
        decide
      have ht : rec_type (jraw d') jh.nbytes_used = 2 := by
        unfold rec_type le16At
        rw [hb0, hb1]
      have hs : rec_size (jraw d') jh.nbytes_used = 4 := by
        unfold rec_size le16At
        rw [show jh.nbytes_used + 2 + 1 = jh.nbytes_used + 3 from by omega, hb2, hb3]
      cases fuel with
      | zero => exact absurd hfu (by omega)
      | succ fuel =>
          simp only [recStreamF]
          rw [ht, hs]
          rw [if_pos (by omega)]
          rw [if_neg (by omega), if_neg (by omega), if_neg (by omega), if_pos rfl,
              if_pos rfl]
          rw [show recStreamF (jraw d') jh'.nbytes_used fuel (jh.nbytes_used + 4) = []
            from by
              cases fuel with
              | zero => rfl
              | succ fuel =>
                  simp only [recStreamF]
                  rw [if_neg (by omega)]]
          rfl
  | cons w ws ih =>
      intro d jh d' jh' h8 h
      unfold append_txn at h
      cases h1 : journal_append_data d jh w.1 w.2 with
      | error e =>
          rw [h1] at h
          cases h
      | ok p1 =>
          obtain ⟨d1, j1⟩ := p1
          rw [h1] at h
          obtain ⟨hj1, hb1, hf1, ho1, hn1, _⟩ := append_data_shape d jh w.1 w.2 d1 j1 h8 h1
          have hu1 : j1.nbytes_used = jh.nbytes_used + 4104 := by rw [hj1]
          have hm1 : j1.magic = jh.magic := by rw [hj1]
          obtain ⟨hju, hjb, hff, hhh, hstream⟩ := ih d1 j1 d' jh' (by omega) h
          refine ⟨by rw [List.length_cons]; omega, by omega, ?_, by rw [hhh, hm1], ?_⟩
          · intro a ha
            rw [hff a ha, hf1 a ha]
          · intro fuel hfu
            have hold : ∀ p, 8 ≤ p → p < j1.nbytes_used → jraw d' p = jraw d1 p :=
              append_txn_preserves ws d1 j1 d' jh' (by omega) h
            have hc0 : jraw d' jh.nbytes_used = 1 := by
              rw [hold _ (by omega) (by omega)]
              have := hn1 0 (by omega)
              rw [Nat.add_zero] at this
              rw [this]
              decide
            have hc1 : jraw d' (jh.nbytes_used + 1) = 0 := by
              rw [hold _ (by omega) (by omega), hn1 1 (by omega)]
              decide
            have hc2 : jraw d' (jh.nbytes_used + 2) = 8 := by
              rw [hold _ (by omega) (by omega), hn1 2 (by omega)]
              decide
            have hc3 : jraw d' (jh.nbytes_used + 3) = 16 := by
              rw [hold _ (by omega) (by omega), hn1 3 (by omega)]
              decide
            have ht : rec_type (jraw d') jh.nbytes_used = 1 := by
              unfold rec_type le16At
              rw [hc0, hc1]
            have hs : rec_size (jraw d') jh.nbytes_used = 4104 := by
              unfold rec_size le16At
              rw [show jh.nbytes_used + 2 + 1 = jh.nbytes_used + 3 from by omega,
                  hc2, hc3]
            cases fuel with
            | zero => exact absurd hfu (by omega)
            | succ fuel =>
                obtain ⟨l, hl, hlen, hdata⟩ := hstream fuel (by omega)
                refine ⟨JRec.data (rec_bno (jraw d') jh.nbytes_used)
                    (rec_img (jraw d') jh.nbytes_used) :: l, ?_, by simp [hlen], ?_⟩
                · simp only [recStreamF]
                  rw [ht, hs]
                  rw [if_pos (by omega)]
                  rw [if_neg (by omega), if_neg (by omega), if_pos rfl, if_pos rfl]
                  rw [show jh.nbytes_used + 4104 = j1.nbytes_used from by omega]
                  rw [hl]
                  rfl
                · intro r hr
                  rcases List.mem_cons.mp hr with hr | hr
                  · exact ⟨_, _, hr⟩
                  · exact hdata r hr

/-- Did cmd_create succeed? -/
def createOk (d : Disk) (name : List Nat) (now : Nat) : Bool :=
  match cmd_create d name now with
  | .ok _ => true
  | .error _ => false

/-- The disk produced by cmd_create (the input disk on failure). -/
def createDisk (d : Disk) (name : List Nat) (now : Nat) : Disk :=
  match cmd_create d name now with
  | .ok d' => d'
  | .error _ => d

theorem create_eq_proj (d : Disk) (name : List Nat) (now : Nat)
    (h : createOk d name now = true) :
    cmd_create d name now = .ok (createDisk d name now) := by
  cases hc : cmd_create d name now with
  | ok d' => simp [createDisk, hc]
  | error e => simp [createOk, hc] at h

/-- After cmd_create's journal initialization, the in-memory header equals
the on-disk header: its nbytes_used is the end of the record area the
create run starts from. -/
theorem init_read (d0 : Disk) :
    journal_read_header (journal_init_if_needed d0).1 = (journal_init_if_needed d0).2 := by
  simp only [journal_init_if_needed]
  by_cases hv : validHeaderB (journal_read_header d0) = true
  · rw [if_pos hv]
  · rw [if_neg hv]
    exact postJournal_header d0

/-- C3: a successful cmd_create changes no byte outside the journal region
(superblock, bitmaps, inode table, root directory and data blocks are all
untouched), and the record area gains exactly one new committed
transaction and nothing else: with u0 the record-area end right after
create's own journal initialization (the on-disk header's nbytes_used at
that point, per init_read), every old record byte in [8, u0) is
unchanged, the header advances by exactly one transaction's size
(3 or 4 DATA records plus one COMMIT), and the appended bytes decode as
exactly that run of DATA records followed by one COMMIT.  When the
original header was already valid, initialization is the identity, so u0
is the original nbytes_used and the old record bytes of the input disk
itself are preserved. -/
theorem c3_create_touches_only_journal (d0 : Disk) (name : List Nat) (now : Nat)
    (d' : Disk) (h : cmd_create d0 name now = .ok d') :
    (∀ a, a < 4096 ∨ 69632 ≤ a → d' a = d0 a)
    ∧ journal_read_header (journal_init_if_needed d0).1 = (journal_init_if_needed d0).2
    ∧ (∀ p, 8 ≤ p → p < ((journal_init_if_needed d0).2).nbytes_used →
        jraw d' p = jraw (journal_init_if_needed d0).1 p)
    ∧ (∃ l,
        8 ≤ ((journal_init_if_needed d0).2).nbytes_used
        ∧ (journal_read_header d').nbytes_used
            = ((journal_init_if_needed d0).2).nbytes_used + (l.length * 4104 + 4)
        ∧ (l.length = 3 ∨ l.length = 4)
        ∧ recStreamF (jraw d') (journal_read_header d').nbytes_used
            (journal_read_header d').nbytes_used
            ((journal_init_if_needed d0).2).nbytes_used
          = l ++ [JRec.commit]
        ∧ ∀ r ∈ l, ∃ b i, r = JRec.data b i)
    ∧ (validHeaderB (journal_read_header d0) = true →
        ((journal_init_if_needed d0).2).nbytes_used
            = (journal_read_header d0).nbytes_used
        ∧ ∀ p, 8 ≤ p → p < (journal_read_header d0).nbytes_used →
            jraw d' p = jraw d0 p) := by
  unfold cmd_create at h
  cases hp : create_plan d0 name now with
  | error e =>
      rw [hp] at h
      exact Except.noConfusion h
  | ok p =>
      rw [hp] at h
      have hm : (match append_txn p.d p.jh p.writes with
          | Except.error e => (Except.error e : Except Err Disk)
          | Except.ok (d, _) => Except.ok d) = .ok d' := h
      cases ht : append_txn p.d p.jh p.writes with
      | error e =>
          rw [ht] at hm
          exact Except.noConfusion hm
      | ok q =>
          obtain ⟨dq, jq⟩ := q
          rw [ht] at hm
          have h2 : (Except.ok dq : Except Err Disk) = .ok d' := hm
          injection h2 with h3
          subst h3
          obtain ⟨hpd, hpjh, hlen⟩ := create_plan_shape d0 name now p hp
          have hval : validHeaderB p.jh = true := by
            rw [hpjh]
            exact (init_shape d0).1
          have hbounds := validHeader_bound _ hval
          obtain ⟨hju, hjb, hff, hhh, hstream⟩ :=
            append_txn_shape p.writes p.d p.jh dq jq hbounds.1 ht
          have hpres := append_txn_preserves p.writes p.d p.jh dq jq hbounds.1 ht
          have hkeep : ∀ pp, 8 ≤ pp →
              pp < ((journal_init_if_needed d0).2).nbytes_used →
              jraw dq pp = jraw (journal_init_if_needed d0).1 pp := by
            intro pp h1 h2
            rw [hpres pp h1 (by rw [hpjh]; exact h2), hpd]
          refine ⟨?_, init_read d0, hkeep, ?_, ?_⟩
          · intro a ha
            rw [hff a ha, hpd]
            exact (init_shape d0).2 a ha
          · have hread : (journal_read_header dq).nbytes_used = jq.nbytes_used := by
              rw [hhh]
              show jq.nbytes_used % 4294967296 = jq.nbytes_used
              exact Nat.mod_eq_of_lt (by omega)
            obtain ⟨l, hl, hllen, hldata⟩ := hstream jq.nbytes_used (by omega)
            refine ⟨l, ?_, ?_, ?_, ?_, hldata⟩
            · rw [← hpjh]
              exact hbounds.1
            · rw [hread, hju, hllen, hpjh]
            · rw [hllen]
              exact hlen
            · rw [hread, ← hpjh]
              exact hl
          · intro hv
            have hinit : journal_init_if_needed d0 = (d0, journal_read_header d0) := by
              simp only [journal_init_if_needed]
              rw [if_pos hv]
            constructor
            · rw [hinit]
            · intro pp h1 h2
              have hk := hkeep pp h1 (by rw [hinit]; exact h2)
              rw [hinit] at hk
              exact hk

/-- Witness for C3: a concrete successful create on the fresh image leaves
the superblock byte 0 and the inode-bitmap byte (block 17) unchanged. -/
theorem c3_witness :
    createDisk freshDisk [97] 0 0 = freshDisk 0
    ∧ createDisk freshDisk [97] 0 69632 = freshDisk 69632 := by
  have hc := c3_create_touches_only_journal freshDisk [97] 0
    (createDisk freshDisk [97] 0) (create_eq_proj freshDisk [97] 0 (by decide))
  exact ⟨hc.1 0 (by norm_num), hc.1 69632 (by norm_num)⟩

/-! ### The S3 scenario: create a, create b, create c, install (C4) -/

/-- Disk after `create a` on the fresh image. -/
def c4d1 : Disk := createDisk freshDisk [97] 0

/-- Disk after `create b`. -/
def c4d2 : Disk := createDisk c4d1 [98] 0

/-- Disk after `create c`. -/
def c4d3 : Disk := createDisk c4d2 [99] 0

/-- The final disk after `install` (falls back to the input on failure). -/
def c4d : Disk :=
  match cmd_install c4d3 with
  | .ok p => p.1
  | .error _ => c4d3

/-- The commit count reported by the final `install` (999 on failure). -/
def c4n : Nat :=
  match cmd_install c4d3 with
  | .ok p => p.2
  | .error _ => 999

set_option maxRecDepth 100000 in
set_option maxHeartbeats 8000000 in
/-- C4 run (code bug evidence): on the fresh image with root.size = 0,
`create a; create b; create c; install` replays 3 commits and sets inode
bitmap byte 0 to 0x0F as the claim expects, but every create computed
directory index max(2, root.size/32) = 2 (root.size grows 0 → 32 → 64,
and 64/32 = 2), so all three directory entries landed at byte offset 64
of the root directory block (block 21, absolute byte 86016): the final
entry at offset 64 carries inode 3 and name 'c' (byte 99), while offsets
96 and 128 — where the claim expects names 'b' and 'c' — are empty
(name bytes 0).  The entries for 'a' and 'b' were silently overwritten. -/
theorem c4_s3_run :
    c4n = 3
    ∧ c4d 69632 = 15
    ∧ c4d 86080 = 3
    ∧ c4d 86084 = 99
    ∧ c4d 86116 = 0
    ∧ c4d 86148 = 0 := by
  constructor
  · decide
  constructor
  · decide
  constructor
  · decide
  constructor
  · decide
  constructor
  · decide
  · decide

/-! ### Overlay overflow behaviour (C8) -/

/-- The adversarial journal for C8: a transaction of 32 DATA records for
blocks 0..31, COMMIT; 32 DATA records for blocks 32..63, COMMIT (the
latest array is now full at 64 entries); one DATA record for block 64,
COMMIT (this upsert fails: array full, block absent); one DATA record
for block 0 with image bytes 1, COMMIT.  Total length 270888 bytes. -/
def c8J : Nat → Nat :=
  fun p =>
    if p < 8 then hdr_src JOURNAL_MAGIC 270888 (p % 8)
    else serL (((List.range 32).map (fun k => (4104, sdata k 0)))
        ++ [(4, scommit)]
        ++ ((List.range 32).map (fun k => (4104, sdata (32 + k) 0)))
        ++ [(4, scommit), (4104, sdata 64 0), (4, scommit), (4104, sdata 0 1),
            (4, scommit)]) (p - 8)

set_option maxRecDepth 100000 in
set_option maxHeartbeats 8000000 in
/-- C8 counterexample: the claim says that when a COMMIT's upsert into the
full 64-entry latest array fails, the scan stops cleanly and no further
records are processed into the overlay.  On this journal the overflow
break fires at the third COMMIT (byte 266780: the instrumentation flag
is already true there, and committed block 64 is missing from the
overlay because its upsert failed), yet the full scan produces a
DIFFERENT overlay: the fourth transaction — entirely after the
overflow — overwrites block 0's overlay image (byte 0 changes from 0 to
1).  So records after the overflow ARE processed into the overlay,
refuting the claim as stated. -/
theorem c8_counterexample :
    (journal_collect_latest_committed c8J 266780 64).2 = true
    ∧ (journal_collect_latest_committed c8J 266780 64).1.map
        (fun e => e.block_no) = List.range 64
    ∧ (logged_image_find (journal_collect_latest_committed c8J 266780 64).1 0).map
        (fun f => f 0) = some 0
    ∧ (journal_collect_latest_committed c8J 270888 64).2 = true
    ∧ (journal_collect_latest_committed c8J 270888 64).1.map
        (fun e => e.block_no) = List.range 64
    ∧ (logged_image_find (journal_collect_latest_committed c8J 270888 64).1 0).map
        (fun f => f 0) = some 1 := by
  constructor
  · decide
  constructor
  · decide
  constructor
  · decide
  constructor
  · decide
  constructor
  · decide
  · decide

/-- C8 amended: when a COMMIT record is reached, the scan always continues
past it with pending cleared — also when an upsert into the latest array
failed; the failure only stops the inner upsert loop, discarding the
remaining pending entries of that COMMIT (and setting the overflow
instrumentation flag).  Later records are still scanned and can still
update overlay entries that are already present. -/
theorem c8_amended_commit_continues (J : Nat → Nat) (used fuel pos : Nat)
    (pending latest : List LoggedImage) (max : Nat) (ovf : Bool)
    (h4 : pos + 4 ≤ used)
    (ht : rec_type J pos = 2) (hs : rec_size J pos = 4) :
    collect_loop J used (fuel + 1) pos pending latest max ovf
      = collect_loop J used fuel (pos + 4) []
          (commit_pending pending latest max).1 max
          (ovf || (commit_pending pending latest max).2)
    ∧ ∀ (p : LoggedImage) (ps : List LoggedImage),
        logged_image_upsert latest max p.block_no p.image = none →
        commit_pending (p :: ps) latest max = (latest, true) := by
  constructor
  · simp only [collect_loop]
    rw [ht, hs]
    rw [if_pos h4, if_neg (by omega), if_neg (by omega), if_neg (by omega),
        if_pos rfl, if_pos rfl]
  · intro p ps hu
    simp only [commit_pending, hu]

/-- A journal holding one COMMIT record at position 8. -/
def c8wJ : Nat → Nat := fun p => if p < 8 then 0 else scommit (p - 8)

/-- Witness for the amended C8 at a concrete commit record, with an upsert
that fails (capacity 0). -/
theorem c8_amended_witness :
    collect_loop c8wJ 12 1 8 [⟨5, fun _ => 0⟩] [] 0 false
      = collect_loop c8wJ 12 0 12 []
          (commit_pending [⟨5, fun _ => 0⟩] [] 0).1 0
          (false || (commit_pending [⟨5, fun _ => 0⟩] [] 0).2)
    ∧ commit_pending [⟨5, fun _ => 0⟩] [] 0 = ([], true) := by
  have hc := c8_amended_commit_continues c8wJ 12 0 8 [⟨5, fun _ => 0⟩] [] 0 false
    (by norm_num) (by decide) (by decide)
  exact ⟨hc.1, hc.2 ⟨5, fun _ => 0⟩ [] rfl⟩

end VsfsJournal